import Mathlib

/-!
# nodey: the workflow state machine of `main.go`

A shallow embedding of the bubbletea model of `main.go` (`model`, `newModel`,
`Update`, the command constructors `analyzeCmd` … `generateCmd`,
`getJSONFiles`) and of the result checks of the `agents` package that the
commands run (`GenerateFlowchart`, `Judgement`).

Conventions of the embedding:

* `Update` is a pure function of the model and the message, except for the
  calls it makes to the outside world.  Those are gathered in `Env`: the
  directory listing read by `getJSONFiles`, the file load of the history
  screen, `strings.EqualFold`, and the `Update` functions of the bubbles
  widgets (`textarea`, `spinner`), whose code is not part of the repository.
* A `tea.Cmd` is a list of `Cmd` values: `nil` is `[]`, a single command is a
  singleton and `tea.Batch(a, b)` is `[a, b]`.
* A Go run-time panic (index out of range) is the result `none`.
* Go `int` fields are `Int`.  They only ever move by one per event, so the
  wrap-around at 2^63 is out of reach and is not modelled.
* The field `client` is a constant pointer and is left out.
-/

namespace Nodey

/-! ## Data model (`agents/architect.go`, `agents/analyst.go`, `agents/judge.go`) -/

/-- Go `agents.Overview`. -/
structure Overview where
  Title : String
  Summary : String
  deriving DecidableEq, Repr

/-- Go `agents.Node`. -/
structure Node where
  ID : String
  Type_ : String
  X : Int
  Y : Int
  Title : String
  Notes : String
  deriving DecidableEq, Repr

/-- Go `agents.Connection`. -/
structure Connection where
  From : String
  To : String
  Type_ : String
  deriving DecidableEq, Repr

/-- Go `agents.Flowchart`. -/
structure Flowchart where
  Overview : Overview
  Nodes : List Node
  Connections : List Connection
  deriving DecidableEq, Repr

/-- Go `agents.AnalystResponse`. -/
structure AnalystResponse where
  Status : String
  Reason : String
  Questions : List String
  Summary : String
  deriving DecidableEq, Repr

/-- Go `agents.JudgeResponse`. -/
structure JudgeResponse where
  Approved : Bool
  Critique : String
  Dissent : String
  deriving DecidableEq, Repr

/-! ## States, messages, commands (`main.go`) -/

/-- The `state` constants of `main.go`, in `iota` order. -/
inductive state where
  | stateInput
  | stateHistory
  | stateAnalyzing
  | stateAnswering
  | stateResearching
  | stateArchitecting
  | stateJudging
  | stateGenerating
  | stateDone
  deriving DecidableEq, Repr

/-- The `tea.KeyType` values that `Update` inspects; all others are `KeyOther`. -/
inductive KeyType where
  | KeyRunes
  | KeyUp
  | KeyDown
  | KeyEnter
  | KeyEsc
  | KeyOther
  deriving DecidableEq, Repr

/-- A `tea.KeyMsg`, seen through the two observations `Update` makes of it:
`msg.Type` and `msg.String()`. -/
structure KeyMsg where
  Type_ : KeyType
  String_ : String
  deriving DecidableEq, Repr

/-- The messages `Update` switches on.  `generationMsg` carries `err` (`nil` is
`none`) and `filename`; `errMsg` is only built with a non-nil error.  `other`
stands for every `tea.Msg` of a type without a case. -/
inductive Msg where
  | key (k : KeyMsg)
  | spinnerTick (id : Nat)
  | analysisMsg (r : AnalystResponse)
  | researchMsg (report : String)
  | architectMsg (fc : Flowchart)
  | judgeMsg (r : JudgeResponse)
  | generationMsg (err : Option String) (filename : String)
  | errMsg (err : String)
  | other
  deriving DecidableEq, Repr

/-- The commands `Update` can return.  The five Step calls keep the arguments
they were built with; `widget` is a command handed back by a bubbles widget. -/
inductive Cmd where
  | quit
  | blink
  | spinnerTick
  | widget (id : Nat)
  | analyze (input : String) (history : List String)
  | research (topic : String) (history : List String)
  | architect (reqs : String) (research : String) (currentFlow : Option Flowchart)
  | judge (fc : Flowchart) (reqs : String)
  | generate (fc : Flowchart)
  deriving DecidableEq, Repr

/-- The part of a bubbles `textarea.Model` that `main.go` reads or writes. -/
structure textarea where
  value : String
  Placeholder : String
  focus : Bool
  deriving DecidableEq, Repr

/-- The method `textarea.Model.Reset`: clears the text. -/
def textarea.Reset (t : textarea) : textarea :=
  { t with value := "" }

/-- The method `textarea.Model.Focus`. -/
def textarea.Focus (t : textarea) : textarea :=
  { t with focus := true }

/-- Go `model` of `main.go` (without `client`). -/
structure model where
  state : Nodey.state
  spinner : Nat
  textInput : textarea
  prompt : String
  history : List String
  files : List String
  cursor : Int
  selectedFile : String
  loadedFlow : Option Flowchart
  questions : List String
  currentQIndex : Int
  answers : List String
  analysisSummary : String
  researchData : String
  flowchart : Flowchart
  revision : Int
  critique : String
  finalPath : String
  err : Option String
  deriving DecidableEq, Repr

/-- One entry of `os.ReadDir`. -/
structure DirEntry where
  Name : String
  IsDir : Bool
  deriving DecidableEq, Repr

/-- What one call of `Update` can ask of the outside world. -/
structure Env where
  /-- Result of `os.ReadDir(".")`. -/
  readDir : Except String (List DirEntry)
  /-- Go `strings.EqualFold`. -/
  equalFold : String → String → Bool
  /-- Outcome of `os.ReadFile` followed by `json.Unmarshal` into a Flowchart;
  `none` when either fails. -/
  readFlow : String → Option Flowchart
  /-- The bubbles `textarea.Model.Update`. -/
  textInputUpdate : textarea → KeyMsg → textarea × Option Nat
  /-- The bubbles `spinner.Model.Update`. -/
  spinnerUpdate : Nat → Nat → Nat × Option Nat

/-- What one call of `Update` produces: the returned model, the returned
command, and the paths handed to `openFileInOS` on the way. -/
structure Outcome where
  m : model
  cmd : List Cmd
  opened : List String

/-! ## Go library functions used by `Update` -/

/-- Go `unicode.IsSpace`. -/
def isSpace (c : Char) : Bool :=
  let n := c.toNat
  n == 9 || n == 10 || n == 11 || n == 12 || n == 13 || n == 32 || n == 0x85 || n == 0xA0
    || n == 0x1680 || (0x2000 ≤ n && n ≤ 0x200A) || n == 0x2028 || n == 0x2029
    || n == 0x202F || n == 0x205F || n == 0x3000

/-- The test `strings.TrimSpace(s) == ""`: every rune of `s` is white space. -/
def blank (s : String) : Bool :=
  s.toList.all isSpace

/-- Go `strings.TrimSpace`. -/
def TrimSpace (s : String) : String :=
  String.mk ((s.toList.dropWhile isSpace).reverse.dropWhile isSpace).reverse

/-- Go `strings.HasSuffix`. -/
def HasSuffix (s suffix : String) : Bool :=
  suffix.toList.isSuffixOf s.toList

/-- Go `strings.Join`. -/
def Join (elems : List String) (sep : String) : String :=
  sep.intercalate elems

/-- Go `strings.Replace(s, old, new, 1)` on rune lists, for a non-empty `old`. -/
def replaceFirst (old new : List Char) : List Char → List Char
  | [] => []
  | c :: cs =>
    if old.isPrefixOf (c :: cs) then new ++ (c :: cs).drop old.length
    else c :: replaceFirst old new cs

/-- An index expression `xs[i]` with a Go `int` index; `none` is the panic. -/
def index {α : Type} (xs : List α) (i : Int) : Option α :=
  if i < 0 then none else xs.get? i.toNat

/-- Go `len` as an `int`. -/
def len {α : Type} (xs : List α) : Int :=
  (xs.length : Int)

/-! ## `main.go` -/

/-- Go `newModel`, on the path where the API key is set. -/
def newModel : model :=
  { state := .stateInput
    spinner := 0
    textInput :=
      { value := ""
        Placeholder := "Describe the flow you need (e.g. 'User Login Process')...\nPress Ctrl+S to submit."
        focus := true }
    prompt := ""
    history := []
    files := []
    cursor := 0
    selectedFile := ""
    loadedFlow := none
    questions := []
    currentQIndex := 0
    answers := []
    analysisSummary := ""
    researchData := ""
    flowchart := ⟨⟨"", ""⟩, [], []⟩
    revision := 0
    critique := ""
    finalPath := ""
    err := none }

/-- Go `getJSONFiles`. -/
def getJSONFiles (env : Env) : Except String (List String) :=
  match env.readDir with
  | .error e => .error e
  | .ok files =>
    .ok (files.filterMap fun f =>
      if !f.IsDir && HasSuffix f.Name "_flow.json" then some f.Name
      else if env.equalFold f.Name "flowchart.json" then some f.Name
      else none)

/-- The `stateInput` branch of the `tea.KeyMsg` case of `Update`. -/
def updateInput (env : Env) (m : model) (k : KeyMsg) : Option Outcome :=
  if k.String_ = "ctrl+s" then
    let m := { m with prompt := m.textInput.value }
    if blank m.prompt then some ⟨m, [], []⟩
    else
      let m := { m with textInput := m.textInput.Reset }
      let m := { m with history := m.history ++ ["User: " ++ m.prompt] }
      let m := { m with state := .stateAnalyzing }
      some ⟨m, [Cmd.spinnerTick, Cmd.analyze m.prompt m.history], []⟩
  else if k.String_ = "ctrl+l" then
    match getJSONFiles env with
    | .ok (f :: fs) =>
      some ⟨{ m with files := f :: fs, state := .stateHistory, cursor := 0 }, [], []⟩
    | _ =>
      some ⟨{ m with history := m.history ++ ["System: No saved flowcharts found."] }, [], []⟩
  else
    let r := env.textInputUpdate m.textInput k
    some ⟨{ m with textInput := r.1 }, r.2.toList.map Cmd.widget, []⟩

/-- The `stateHistory` branch of the `tea.KeyMsg` case of `Update`. -/
def updateHistory (env : Env) (m : model) (k : KeyMsg) : Option Outcome :=
  match k.Type_ with
  | .KeyUp =>
    if m.cursor > 0 then some ⟨{ m with cursor := m.cursor - 1 }, [], []⟩
    else some ⟨m, [], []⟩
  | .KeyDown =>
    if m.cursor < len m.files - 1 then some ⟨{ m with cursor := m.cursor + 1 }, [], []⟩
    else some ⟨m, [], []⟩
  | .KeyEnter =>
    match index m.files m.cursor with
    | none => none
    | some file =>
      let m := { m with selectedFile := file }
      match env.readFlow m.selectedFile with
      | some flow =>
        let m := { m with loadedFlow := some flow }
        let m := { m with
          history := m.history ++ ["System: Loaded " ++ m.selectedFile ++ ". Enter changes below:"] }
        let m := { m with state := .stateInput }
        let m := { m with textInput :=
          { m.textInput with
            Placeholder := "What changes do you want to make?\nPress Ctrl+S to submit." } }
        some ⟨m, [], []⟩
      | none =>
        let m := { m with state := .stateInput }
        let m := { m with history := m.history ++ ["System: Failed to load file."] }
        some ⟨m, [], []⟩
  | .KeyEsc => some ⟨{ m with state := .stateInput }, [], []⟩
  | .KeyRunes =>
    if k.String_ = "o" then
      match index m.files m.cursor with
      | none => none
      | some file =>
        let m := { m with selectedFile := file }
        let htmlPath := String.mk (replaceFirst ".json".toList ".html".toList m.selectedFile.toList)
        some ⟨m, [], [htmlPath]⟩
    else some ⟨m, [], []⟩
  | .KeyOther => some ⟨m, [], []⟩

/-- The `stateAnswering` branch of the `tea.KeyMsg` case of `Update`. -/
def updateAnswering (env : Env) (m : model) (k : KeyMsg) : Option Outcome :=
  if k.String_ = "ctrl+s" then
    let answer := m.textInput.value
    if blank answer then some ⟨m, [], []⟩
    else
      match index m.questions m.currentQIndex with
      | none => none
      | some q =>
        let m := { m with history := m.history ++ ["Q: " ++ q ++ "\nA: " ++ answer] }
        let m := { m with answers := m.answers ++ [answer] }
        let m := { m with textInput := m.textInput.Reset }
        let m := { m with currentQIndex := m.currentQIndex + 1 }
        if m.currentQIndex ≥ len m.questions then
          let m := { m with state := .stateResearching }
          some ⟨m, [Cmd.spinnerTick, Cmd.research (m.prompt ++ " " ++ Join m.answers " ") m.history], []⟩
        else
          let m := { m with textInput := { m.textInput with Placeholder := "Your answer..." } }
          some ⟨m, [], []⟩
  else
    let r := env.textInputUpdate m.textInput k
    some ⟨{ m with textInput := r.1 }, r.2.toList.map Cmd.widget, []⟩

/-- Go `model.Update`. -/
def Update (env : Env) (m : model) (msg : Msg) : Option Outcome :=
  match msg with
  | .key k =>
    if k.String_ = "ctrl+c" ∨ k.String_ = "q" then some ⟨m, [Cmd.quit], []⟩
    else if m.state = .stateDone ∧ k.String_ = "o" then some ⟨m, [], [m.finalPath]⟩
    else if m.state = .stateInput then updateInput env m k
    else if m.state = .stateHistory then updateHistory env m k
    else if m.state = .stateAnswering then updateAnswering env m k
    else some ⟨m, [], []⟩
  | .spinnerTick id =>
    if m.state ≠ .stateInput ∧ m.state ≠ .stateAnswering ∧ m.state ≠ .stateDone then
      let r := env.spinnerUpdate m.spinner id
      some ⟨{ m with spinner := r.1 }, r.2.toList.map Cmd.widget, []⟩
    else some ⟨m, [], []⟩
  | .analysisMsg msg =>
    if msg.Status = "valid" then
      let m := { m with analysisSummary := msg.Summary }
      let m := { m with history := m.history ++ ["Analyst: Request is valid. " ++ msg.Summary] }
      let m := { m with state := .stateResearching }
      some ⟨m, [Cmd.research m.prompt m.history], []⟩
    else if msg.Status = "needs_info" then
      let m := { m with history := m.history ++ ["Analyst: Need info - " ++ msg.Reason] }
      let m := { m with questions := msg.Questions }
      let m := { m with currentQIndex := 0 }
      let m := { m with state := .stateAnswering }
      let m := { m with textInput :=
        { m.textInput with Placeholder := "Answer the question...\nPress Ctrl+S to submit." } }
      let m := { m with textInput := m.textInput.Focus }
      some ⟨m, [Cmd.blink], []⟩
    else
      let m := { m with state := .stateInput }
      let m := { m with err := some ("Analyst rejected: " ++ msg.Reason) }
      let m := { m with history := m.history ++ ["Analyst: Rejected - " ++ msg.Reason] }
      some ⟨m, [], []⟩
  | .researchMsg msg =>
    let m := { m with researchData := msg }
    let m := { m with history := m.history ++ ["Researcher: Found relevant patterns and data."] }
    let m := { m with state := .stateArchitecting }
    some ⟨m, [Cmd.architect (m.prompt ++ " " ++ m.analysisSummary) m.researchData m.loadedFlow], []⟩
  | .architectMsg msg =>
    let m := { m with flowchart := msg }
    let m := { m with history := m.history ++
      ["Architect: Drafted flow with " ++ toString m.flowchart.Nodes.length ++ " nodes."] }
    let m := { m with state := .stateJudging }
    some ⟨m, [Cmd.judge m.flowchart m.prompt], []⟩
  | .judgeMsg msg =>
    if msg.Approved then
      let m := { m with history := m.history ++ ["Judges: Unanimous Approval."] }
      let m := { m with state := .stateGenerating }
      some ⟨m, [Cmd.generate m.flowchart], []⟩
    else
      let m := { m with revision := m.revision + 1 }
      if m.revision > (3 : Int) then
        let m := { m with history := m.history ++ ["Judges: Forced approval after max revisions."] }
        let m := { m with state := .stateGenerating }
        some ⟨m, [Cmd.generate m.flowchart], []⟩
      else
        let m := { m with critique := msg.Critique ++ " " ++ msg.Dissent }
        let m := { m with history := m.history ++
          ["Judges: Critique - " ++ msg.Critique ++ ". Sending back to Architect."] }
        let m := { m with state := .stateArchitecting }
        let reqs := m.prompt ++ ". Feedback: " ++ m.critique
        some ⟨m, [Cmd.architect reqs m.researchData m.loadedFlow], []⟩
  | .generationMsg err filename =>
    match err with
    | some e =>
      let m := { m with err := some e }
      let m := { m with history := m.history ++ ["Generator: Failed - " ++ e] }
      let m := { m with state := .stateInput }
      some ⟨m, [], []⟩
    | none =>
      let m := { m with finalPath := filename }
      let m := { m with history := m.history ++ ["Generator: Success! Saved to " ++ m.finalPath] }
      let m := { m with state := .stateDone }
      some ⟨m, [], []⟩
  | .errMsg err =>
    let m := { m with err := some err }
    let m := { m with history := m.history ++ ["Error: " ++ err] }
    let m := { m with state := .stateInput }
    some ⟨m, [], []⟩
  | .other => some ⟨m, [], []⟩

/-- The index expression `m.questions[m.currentQIndex]`, evaluated by the
`stateAnswering` case of `View` and by the answer handler of `Update`. -/
def currentQuestion (m : model) : Option String :=
  index m.questions m.currentQIndex

/-! ## The commands: what each one delivers back to `Update` -/

/-- Go `analyzeCmd`, as a function of what `agents.AnalyzeRequest` returned. -/
def analyzeCmd (res : Except String AnalystResponse) : Msg :=
  match res with
  | .error e => .analysisMsg { Status := "error", Reason := e, Questions := [], Summary := "" }
  | .ok r => .analysisMsg r

/-- Go `researchCmd`, as a function of what `agents.Research` returned. -/
def researchCmd (res : Except String String) : Msg :=
  match res with
  | .error _ => .researchMsg "Research failed but continuing..."
  | .ok r => .researchMsg r

/-- Go `agents.GenerateFlowchart` after the API call: `parsed` is the outcome of
the call and of `json.Unmarshal`; the node check follows. -/
def GenerateFlowchart (parsed : Except String Flowchart) : Except String Flowchart :=
  match parsed with
  | .error e => .error e
  | .ok flow =>
    if flow.Nodes.length = 0 then
      .error "generated flowchart has 0 nodes, likely invalid JSON or AI refusal"
    else .ok flow

/-- Go `architectCmd`. -/
def architectCmd (parsed : Except String Flowchart) : Msg :=
  match GenerateFlowchart parsed with
  | .error e => .errMsg e
  | .ok res => .architectMsg res

/-- Go `agents.Judgement` after the API call: `parsed` is the outcome of the
call and of `json.Unmarshal`. -/
def Judgement (parsed : Except String JudgeResponse) : Except String JudgeResponse :=
  match parsed with
  | .error e => .error e
  | .ok resp => .ok { resp with Critique := TrimSpace resp.Critique }

/-- Go `judgeCmd`: `marshalOk` says whether `json.Marshal(fc)` succeeded. -/
def judgeCmd (marshalOk : Bool) (parsed : Except String JudgeResponse) : Msg :=
  if !marshalOk then .judgeMsg { Approved := true, Critique := "", Dissent := "" }
  else
    match Judgement parsed with
    | .error _ => .judgeMsg { Approved := true, Critique := "", Dissent := "" }
    | .ok res => .judgeMsg res

/-- The rune map of `generateCmd`: ASCII letters and digits are kept. -/
def safeRune (r : Char) : Char :=
  if (r.toNat ≥ 97 ∧ r.toNat ≤ 122) ∨ (r.toNat ≥ 65 ∧ r.toNat ≤ 90) ∨ (r.toNat ≥ 48 ∧ r.toNat ≤ 57)
  then r else '_'

/-- The `filename` computed by `generateCmd` for the time stamp `timestamp`. -/
def generateFilename (fc : Flowchart) (timestamp : String) : String :=
  let title := if fc.Overview.Title = "" then "untitled_flow" else fc.Overview.Title
  let safeTitle := String.mk (title.toList.map safeRune)
  safeTitle ++ "_" ++ timestamp ++ "_flow.html"

/-- Go `generateCmd`: `genErr` is what `generator.GenerateHTML` returned. -/
def generateCmd (fc : Flowchart) (timestamp : String) (genErr : Option String) : Msg :=
  match genErr with
  | none => .generationMsg none (generateFilename fc timestamp)
  | some e => .generationMsg (some e) ""

/-! ## Runs of the machine -/

/-- The environment used for concrete runs: empty directory, no loadable
file, widgets that do nothing. -/
def quietEnv : Env :=
  { readDir := .ok []
    equalFold := fun a b => a.toLower == b.toLower
    readFlow := fun _ => none
    textInputUpdate := fun t _ => (t, none)
    spinnerUpdate := fun s _ => (s, none) }

/-- One Drafting→Reviewing cycle: the Draft result `d` is delivered, then the
Review outcome `r`. -/
def cycle (env : Env) (m : model) (d : Flowchart) (r : JudgeResponse) : Option Outcome :=
  match Update env m (.architectMsg d) with
  | none => none
  | some o => Update env o.m (.judgeMsg r)

/-- Whether a command is a Draft call. -/
def Cmd.isDraft : Cmd → Bool
  | .architect _ _ _ => true
  | _ => false

/-- The model after `n` cycles whose Review outcomes are `rs 0`, …, `rs (n-1)`
on the Draft results `ds 0`, …, `ds (n-1)`. -/
def afterCycles (env : Env) (m : model) (ds : Nat → Flowchart) (rs : Nat → JudgeResponse) :
    Nat → Option Outcome
  | 0 => some ⟨m, [], []⟩
  | n + 1 =>
    match afterCycles env m ds rs n with
    | none => none
    | some o => cycle env o.m (ds n) (rs n)

/-- Whether a message is one of the asynchronous result events. -/
def Msg.isResult : Msg → Bool
  | .analysisMsg _ => true
  | .researchMsg _ => true
  | .architectMsg _ => true
  | .judgeMsg _ => true
  | .generationMsg _ _ => true
  | .errMsg _ => true
  | _ => false

/-! ## Concrete inputs used by the scenarios -/

/-- A session for the request "Order flow" whose first Draft call is out. -/
def draftingModel : model :=
  { newModel with state := .stateArchitecting, prompt := "Order flow" }

/-- A diagram with a single node. -/
def oneNode : Flowchart :=
  { Overview := ⟨"Order", "one step"⟩
    Nodes := [⟨"1", "start", 100, 300, "Start", "Entry point"⟩]
    Connections := [] }

/-- A diagram with two connected nodes. -/
def twoNodes : Flowchart :=
  { Overview := ⟨"Order", "two steps"⟩
    Nodes := [⟨"1", "start", 100, 300, "Start", "Entry point"⟩,
              ⟨"2", "end", 400, 300, "Done", "Exit"⟩]
    Connections := [⟨"1", "2", "out"⟩] }

/-- A rejecting Review outcome. -/
def rejection : JudgeResponse :=
  { Approved := false, Critique := "c", Dissent := "d" }

/-! ## The dispatch of Step calls as a transition system -/

/-- Whether a command is a Step Contract call (Analyze, Research, Draft,
Review) or the Emit call. -/
def Cmd.isStep : Cmd → Bool
  | .analyze _ _ => true
  | .research _ _ => true
  | .architect _ _ _ => true
  | .judge _ _ => true
  | .generate _ => true
  | _ => false

/-- The states in which a call is in flight. -/
def state.inflight : state → Bool
  | .stateAnalyzing => true
  | .stateResearching => true
  | .stateArchitecting => true
  | .stateJudging => true
  | .stateGenerating => true
  | _ => false

/-- The in-flight state that matches a call. -/
def Cmd.awaitedIn : Cmd → state → Bool
  | .analyze _ _, .stateAnalyzing => true
  | .research _ _, .stateResearching => true
  | .architect _ _ _, .stateArchitecting => true
  | .judge _ _, .stateJudging => true
  | .generate _, .stateGenerating => true
  | _, _ => false

/-- The result messages a call can deliver: the values its command function
can return. -/
def delivers : Cmd → Msg → Prop
  | .analyze _ _, msg => ∃ res, msg = analyzeCmd res
  | .research _ _, msg => ∃ res, msg = researchCmd res
  | .architect _ _ _, msg => ∃ parsed, msg = architectCmd parsed
  | .judge _ _, msg => ∃ marshalOk parsed, msg = judgeCmd marshalOk parsed
  | .generate fc, msg => ∃ timestamp genErr, msg = generateCmd fc timestamp genErr
  | _, _ => False

/-- A configuration of the running program: the model and the calls that have
been issued and whose result has not been delivered yet. -/
structure Config where
  m : model
  pending : List Cmd

/-- One step of the event loop.  `event`: a message that is not a result (a key,
a spinner tick, any other message) is handled.  `deliver`: one pending call
completes and its result message is handled; the call is no longer pending.
In both cases the Step calls among the returned commands become pending. -/
inductive Step : Config → Config → Prop
  | event (env : Env) (c : Config) (msg : Msg) (o : Outcome) :
      msg.isResult = false → Update env c.m msg = some o →
      Step c ⟨o.m, c.pending ++ o.cmd.filter Cmd.isStep⟩
  | deliver (env : Env) (c : Config) (pre post : List Cmd) (call : Cmd) (msg : Msg)
      (o : Outcome) :
      c.pending = pre ++ call :: post → delivers call msg → Update env c.m msg = some o →
      Step c ⟨o.m, pre ++ post ++ o.cmd.filter Cmd.isStep⟩

/-- The configurations reachable from the initial model with no call pending. -/
def Reachable (c : Config) : Prop :=
  Relation.ReflTransGen Step ⟨newModel, []⟩ c

/-- The dispatch invariant: no call is pending outside the in-flight states, and
in an in-flight state exactly the matching call is pending. -/
def DispatchInv (c : Config) : Prop :=
  (c.pending = [] ∧ c.m.state.inflight = false) ∨
  ∃ call, c.pending = [call] ∧ call.awaitedIn c.m.state = true

/-- An environment whose text area appends the typed key to its text. -/
def typingEnv : Env :=
  { quietEnv with
    textInputUpdate := fun t k => ({ t with value := t.value ++ k.String_ }, none) }

/-- An environment whose working directory holds one saved flowchart. -/
def savedEnv : Env :=
  { quietEnv with
    readDir := .ok [⟨"order_20250101_120000_flow.json", false⟩]
    readFlow := fun _ => some twoNodes }

/-- The configuration after typing "x" in the initial model. -/
def typedConfig : Config :=
  { m := { newModel with textInput := { newModel.textInput with value := "x" } }
    pending := [] }

/-- The configuration after typing "x" and submitting it: the Analyze call is
pending. -/
def analyzingConfig : Config :=
  { m := { newModel with
            state := .stateAnalyzing
            prompt := "x"
            history := ["User: x"] }
    pending := [Cmd.analyze "x" ["User: x"]] }

/-- The user submits the answer `a`: the text area holds `a` when ctrl+s
arrives. -/
def submitAnswer (env : Env) (m : model) (a : String) : Option Outcome :=
  Update env { m with textInput := { m.textInput with value := a } }
    (.key ⟨.KeyOther, "ctrl+s"⟩)

/-- The outcomes of submitting the given answers one after the other; the list
stops at a panic. -/
def submitAnswers (env : Env) : model → List String → List Outcome
  | _, [] => []
  | m, a :: rest =>
    match submitAnswer env m a with
    | none => []
    | some o => o :: submitAnswers env o.m rest

/-- What is observed after an answer: the state, the question cursor and the
number of Step calls issued. -/
def Outcome.observe (o : Outcome) : state × Int × Nat :=
  (o.m.state, o.m.currentQIndex, (o.cmd.filter Cmd.isStep).length)

/-- An Analyze result that asks for information without any question. -/
def noQuestions : AnalystResponse :=
  { Status := "needs_info", Reason := "Too vague", Questions := [], Summary := "" }

/-! ## Scripted runs of the event loop -/

/-- What the outside world answers to a call: the arguments of the command
functions `analyzeCmd` … `generateCmd`. -/
inductive Response where
  | analyze (res : Except String AnalystResponse)
  | research (res : Except String String)
  | architect (parsed : Except String Flowchart)
  | judge (marshalOk : Bool) (parsed : Except String JudgeResponse)
  | generate (timestamp : String) (genErr : Option String)

/-- The message a call delivers on a response of its own kind. -/
def respond : Cmd → Response → Option Msg
  | .analyze _ _, .analyze res => some (analyzeCmd res)
  | .research _ _, .research res => some (researchCmd res)
  | .architect _ _ _, .architect parsed => some (architectCmd parsed)
  | .judge _ _, .judge marshalOk parsed => some (judgeCmd marshalOk parsed)
  | .generate fc, .generate timestamp genErr => some (generateCmd fc timestamp genErr)
  | _, _ => none

/-- One input of a scripted run: a message that is not a result, or the response
to the oldest pending call. -/
inductive Input where
  | event (env : Env) (msg : Msg)
  | result (env : Env) (r : Response)

/-- One step of a scripted run; `none` when the input does not apply (a result
message given as an event, no pending call, a response of the wrong kind) or
`Update` panics. -/
def feed (c : Config) : Input → Option Config
  | .event env msg =>
    if msg.isResult then none
    else
      match Update env c.m msg with
      | none => none
      | some o => some ⟨o.m, c.pending ++ o.cmd.filter Cmd.isStep⟩
  | .result env r =>
    match c.pending with
    | [] => none
    | call :: post =>
      match respond call r with
      | none => none
      | some msg =>
        match Update env c.m msg with
        | none => none
        | some o => some ⟨o.m, post ++ o.cmd.filter Cmd.isStep⟩

/-- A scripted run: the inputs are fed one after the other. -/
def run (c : Config) : List Input → Option Config
  | [] => some c
  | i :: rest =>
    match feed c i with
    | none => none
    | some c' => run c' rest

/-- An environment in which the text area holds `text` after the key. -/
def typesEnv (text : String) : Env :=
  { quietEnv with textInputUpdate := fun t _ => ({ t with value := text }, none) }

/-- The last keystroke of typing `text`. -/
def typeText (text : String) : Input :=
  .event (typesEnv text) (.key ⟨.KeyRunes, "x"⟩)

/-- The submit key, ctrl+s. -/
def pressSubmit : Input :=
  .event quietEnv (.key ⟨.KeyOther, "ctrl+s"⟩)

/-- The log entry of a forced approval. -/
def forcedEntry : String :=
  "Judges: Forced approval after max revisions."

/-- An Analyze result that accepts the request. -/
def validAnalysis : AnalystResponse :=
  { Status := "valid", Reason := "clear", Questions := [], Summary := "An order process." }

/-- A run of the whole pipeline on a typed request in which Review rejects
`rejections` Drafts in a row. -/
def rejectedRun (request : String) (rejections : Nat) : List Input :=
  [typeText request, pressSubmit,
   .result quietEnv (.analyze (.ok validAnalysis)),
   .result quietEnv (.research (.ok "report"))] ++
  (List.replicate rejections
    [Input.result quietEnv (.architect (.ok twoNodes)),
     Input.result quietEnv (.judge true (.ok rejection))]).flatten

/-- Two runs in one session: four rejections and a failed Emit, then a new
submission and one more rejection. -/
def twoRuns : List Input :=
  rejectedRun "Order flow" 4 ++
  [.result quietEnv (.generate "20250101_120000" (some "disk full"))] ++
  rejectedRun "Order flow again" 1

/-- An approving Review outcome. -/
def approval : JudgeResponse :=
  { Approved := true, Critique := "", Dissent := "" }

/-- A run of the whole pipeline that succeeds at the first Draft. -/
def successfulRun : List Input :=
  [typeText "Order flow", pressSubmit,
   .result quietEnv (.analyze (.ok validAnalysis)),
   .result quietEnv (.research (.ok "report")),
   .result quietEnv (.architect (.ok twoNodes)),
   .result quietEnv (.judge true (.ok approval)),
   .result quietEnv (.generate "20250101_120000" none)]

/-- The configuration at the end of `successfulRun`: the artifact is saved and
the machine is in `stateDone`. -/
def doneConfig : Config :=
  { m := { newModel with
            state := .stateDone
            prompt := "Order flow"
            analysisSummary := "An order process."
            researchData := "report"
            flowchart := twoNodes
            finalPath := "Order_20250101_120000_flow.html"
            history :=
              ["User: Order flow",
               "Analyst: Request is valid. An order process.",
               "Researcher: Found relevant patterns and data.",
               "Architect: Drafted flow with 2 nodes.",
               "Judges: Unanimous Approval.",
               "Generator: Success! Saved to Order_20250101_120000_flow.html"] }
    pending := [] }

/-- The history screen on the saved flowchart of `savedEnv`. -/
def historyModel : model :=
  { newModel with
    state := .stateHistory
    files := ["order_20250101_120000_flow.json"]
    cursor := 0 }

/-- The outcome of confirming the selection in `historyModel`: the baseline is
loaded. -/
def baselineLoaded : Outcome :=
  { m := { historyModel with
            state := .stateInput
            selectedFile := "order_20250101_120000_flow.json"
            loadedFlow := some twoNodes
            history := ["System: Loaded order_20250101_120000_flow.json. Enter changes below:"]
            textInput :=
              { newModel.textInput with
                Placeholder := "What changes do you want to make?\nPress Ctrl+S to submit." } }
    cmd := []
    opened := [] }

/-- The pending calls after each input of a scripted run. -/
def runPending (c : Config) : List Input → List (List Cmd)
  | [] => []
  | i :: rest =>
    match feed c i with
    | none => []
    | some c' => c'.pending :: runPending c' rest

/-- The baseline argument of a Draft call. -/
def Cmd.baseline : Cmd → Option (Option Flowchart)
  | .architect _ _ currentFlow => some currentFlow
  | _ => none

/-- Loading the saved flowchart of `savedEnv` as baseline, then a run in which
Review rejects three Drafts in a row. -/
def baselineRun : List Input :=
  [.event savedEnv (.key ⟨.KeyOther, "ctrl+l"⟩),
   .event savedEnv (.key ⟨.KeyEnter, "enter"⟩)] ++
  rejectedRun "Add a payment step" 3

/-- The states after the inputs of a scripted run that are not plain keystrokes
(typing leaves the state as it is). -/
def runMilestones (c : Config) : List Input → List state
  | [] => []
  | i :: rest =>
    match feed c i with
    | none => []
    | some c' =>
      match i with
      | .event _ (.key ⟨.KeyRunes, _⟩) => runMilestones c' rest
      | _ => c'.m.state :: runMilestones c' rest

/-- Scenario A: the request "Order flow", an Analyze result needs_info with the
two questions `q1` and `q2`, the answers `a1` and `a2`, a Research report, the
Draft result `d`, the Review outcome `ruling` and a successful Emit. -/
def scenarioA (reason summary q1 q2 a1 a2 report : String) (d : Flowchart)
    (ruling : JudgeResponse) (timestamp : String) : List Input :=
  [typeText "Order flow", pressSubmit,
   .result quietEnv (.analyze (.ok
      { Status := "needs_info", Reason := reason, Questions := [q1, q2], Summary := summary })),
   typeText a1, pressSubmit,
   typeText a2, pressSubmit,
   .result quietEnv (.research (.ok report)),
   .result quietEnv (.architect (.ok d)),
   .result quietEnv (.judge true (.ok ruling)),
   .result quietEnv (.generate timestamp none)]

/-- A diagram with three nodes. -/
def threeNodes : Flowchart :=
  { Overview := ⟨"Order flow", "three steps"⟩
    Nodes := [⟨"1", "start", 100, 300, "Start", "Entry point"⟩,
              ⟨"2", "action", 400, 300, "Pay", "Charge the card"⟩,
              ⟨"3", "end", 700, 300, "Done", "Exit"⟩]
    Connections := [⟨"1", "2", "out"⟩, ⟨"2", "3", "out"⟩] }

/-! ## The artifact files (`generateCmd`, `generator/html.go`) -/

/-- The `strings.Map` call of `generateCmd`: `safeRune` applied to every rune of
the title. -/
def sanitize (title : String) : String :=
  String.mk (title.toList.map safeRune)

/-- The `jsonFilename` computed by `generator.GenerateHTML`: `len(filename)` is
the length in bytes, and a file name that ends in ".html" loses these five
bytes. -/
def jsonFilename (filename : String) : String :=
  if filename.utf8ByteSize > 5 ∧ HasSuffix filename ".html" then
    String.mk (filename.toList.take (filename.toList.length - 5)) ++ ".json"
  else filename ++ ".json"

/-- Go `generator.GenerateHTML`, as a function of the outcome of
`json.MarshalIndent` and of `os.WriteFile` per file name (`none` is success).
The result is the returned error and the names of the files written. -/
def GenerateHTML (marshalErr : Option String) (writeFile : String → Option String)
    (filename : String) : Option String × List String :=
  match marshalErr with
  | some e => (some e, [])
  | none =>
    match writeFile (jsonFilename filename) with
    | some e => (some ("failed to save JSON: " ++ e), [])
    | none =>
      match writeFile filename with
      | some e => (some e, [jsonFilename filename])
      | none => (none, [jsonFilename filename, filename])

/-- A submission answered by Analyze with needs_info and no question. -/
def noQuestionsRun : List Input :=
  [typeText "Order flow", pressSubmit,
   .result quietEnv (.analyze (.ok noQuestions))]

/-- The safety condition of the question lookup: in `stateAnswering` the cursor
is a valid index of `questions`. -/
def questionIndexOk (m : model) : Prop :=
  m.state = .stateAnswering → 0 ≤ m.currentQIndex ∧ m.currentQIndex < len m.questions

/-- The safety condition of the history screen: in `stateHistory` the file list
is not empty and the cursor is one of its indices. -/
def historyCursorOk (m : model) : Prop :=
  m.state = .stateHistory → 0 < len m.files ∧ 0 ≤ m.cursor ∧ m.cursor ≤ len m.files - 1

/-- The configuration after the load key in the initial model, with the saved
flowchart of `savedEnv` in the working directory. -/
def historyConfig : Config :=
  { m := historyModel, pending := [] }

/-- The outcome of Esc on the history screen `historyModel`: back to
`stateInput`, nothing else changed. -/
def historyCancelled : Outcome :=
  { m := { historyModel with state := .stateInput }, cmd := [], opened := [] }

/-! ## Helper lemmas: `Update` on the result messages -/

/-- The `architectMsg` case of `Update`: the diagram is stored and logged, and the
Review call is issued, whatever the number of nodes. -/
theorem Update_architectMsg (env : Env) (m : model) (d : Flowchart) :
    Update env m (.architectMsg d) =
      some ⟨{ m with
              flowchart := d
              history := m.history ++
                ["Architect: Drafted flow with " ++ toString d.Nodes.length ++ " nodes."]
              state := .stateJudging },
            [Cmd.judge d m.prompt], []⟩ := rfl

/-- The `judgeMsg` case of `Update` on a rejection that takes the revision count
above 3: forced approval. -/
theorem Update_judgeMsg_forced (env : Env) (m : model) (r : JudgeResponse)
    (h : r.Approved = false) (hr : 3 < m.revision + 1) :
    Update env m (.judgeMsg r) =
      some ⟨{ m with
              revision := m.revision + 1
              history := m.history ++ ["Judges: Forced approval after max revisions."]
              state := .stateGenerating },
            [Cmd.generate m.flowchart], []⟩ := by
  simp [Update, h, hr]

/-- The `judgeMsg` case of `Update` on a rejection that leaves the revision count
at 3 or below: back to the architect. -/
theorem Update_judgeMsg_rejected (env : Env) (m : model) (r : JudgeResponse)
    (h : r.Approved = false) (hr : m.revision + 1 ≤ 3) :
    Update env m (.judgeMsg r) =
      some ⟨{ m with
              revision := m.revision + 1
              critique := r.Critique ++ " " ++ r.Dissent
              history := m.history ++
                ["Judges: Critique - " ++ r.Critique ++ ". Sending back to Architect."]
              state := .stateArchitecting },
            [Cmd.architect (m.prompt ++ ". Feedback: " ++ (r.Critique ++ " " ++ r.Dissent))
              m.researchData m.loadedFlow], []⟩ := by
  have hr' : ¬ (3 < m.revision + 1) := by omega
  simp [Update, h, hr']

/-- The model in which the Review outcome of a cycle is handled: the Draft
result `d` has been stored and logged. -/
theorem cycle_eq (env : Env) (m : model) (d : Flowchart) (r : JudgeResponse) :
    cycle env m d r =
      Update env
        { m with
          flowchart := d
          history := m.history ++
            ["Architect: Drafted flow with " ++ toString d.Nodes.length ++ " nodes."]
          state := .stateJudging } (.judgeMsg r) := rfl

/-- A cycle whose rejection takes the revision count above 3. -/
theorem cycle_forced (env : Env) (m : model) (d : Flowchart) (r : JudgeResponse)
    (h : r.Approved = false) (hr : 3 < m.revision + 1) :
    cycle env m d r =
      some ⟨{ m with
              flowchart := d
              revision := m.revision + 1
              history := m.history ++
                ["Architect: Drafted flow with " ++ toString d.Nodes.length ++ " nodes.",
                 "Judges: Forced approval after max revisions."]
              state := .stateGenerating },
            [Cmd.generate d], []⟩ := by
  rw [cycle_eq, Update_judgeMsg_forced env _ r h (by exact hr)]
  simp

/-- A cycle whose rejection leaves the revision count at 3 or below. -/
theorem cycle_rejected (env : Env) (m : model) (d : Flowchart) (r : JudgeResponse)
    (h : r.Approved = false) (hr : m.revision + 1 ≤ 3) :
    cycle env m d r =
      some ⟨{ m with
              flowchart := d
              revision := m.revision + 1
              critique := r.Critique ++ " " ++ r.Dissent
              history := m.history ++
                ["Architect: Drafted flow with " ++ toString d.Nodes.length ++ " nodes.",
                 "Judges: Critique - " ++ r.Critique ++ ". Sending back to Architect."]
              state := .stateArchitecting },
            [Cmd.architect (m.prompt ++ ". Feedback: " ++ (r.Critique ++ " " ++ r.Dissent))
              m.researchData m.loadedFlow], []⟩ := by
  rw [cycle_eq, Update_judgeMsg_rejected env _ r h (by exact hr)]
  simp

/-- After `n ≤ 3` consecutive rejections from `revision = 0` the machine is back
in `stateArchitecting` with `revision = n`, having just issued a Draft call. -/
theorem afterCycles_rejected (env : Env) (m : model) (ds : Nat → Flowchart)
    (rs : Nat → JudgeResponse) (hrev : m.revision = 0)
    (hrej : ∀ i, (rs i).Approved = false) :
    ∀ n, n ≤ 3 → ∃ o, afterCycles env m ds rs n = some o ∧ o.m.revision = n ∧
      o.m.prompt = m.prompt ∧ o.m.researchData = m.researchData ∧
      o.m.loadedFlow = m.loadedFlow ∧
      (1 ≤ n → o.m.state = .stateArchitecting ∧
        o.cmd = [Cmd.architect
          (m.prompt ++ ". Feedback: " ++ ((rs (n - 1)).Critique ++ " " ++ (rs (n - 1)).Dissent))
          m.researchData m.loadedFlow]) := by
  intro n
  induction n with
  | zero => intro _; exact ⟨_, rfl, by simpa using hrev, rfl, rfl, rfl, by simp⟩
  | succ k ih =>
    intro hk
    obtain ⟨o, h1, h2, h3, h4, h5, _⟩ := ih (by omega)
    have hr : o.m.revision + 1 ≤ 3 := by rw [h2]; omega
    have e : afterCycles env m ds rs (k + 1) = cycle env o.m (ds k) (rs k) := by
      simp only [afterCycles, h1]
    rw [cycle_rejected env o.m (ds k) (rs k) (hrej k) hr] at e
    refine ⟨_, e, ?_, ?_, ?_, ?_, ?_⟩
    · simp [h2]
    · exact h3
    · exact h4
    · exact h5
    · intro _
      simp [h3, h4, h5]

/-- C2 (amended). With cap = 3 and `revision` starting at 0, when Review rejects
consecutively, each of the first three rejections sends the machine back to
`stateArchitecting` with one new Draft call, and the `judgeMsg` handler enters
`stateGenerating` on the 4th rejection (`revision = 4 > 3`), issuing the Emit
command and no Draft call; the log then ends with the forced-approval entry. -/
theorem forced_approval_on_fourth_rejection (env : Env) (m : model) (ds : Nat → Flowchart)
    (rs : Nat → JudgeResponse) (hrev : m.revision = 0)
    (hrej : ∀ i, (rs i).Approved = false) :
    (∀ n, 1 ≤ n → n ≤ 3 → ∃ o, afterCycles env m ds rs n = some o ∧
        o.m.state = .stateArchitecting ∧ o.m.revision = n ∧
        (o.cmd.filter Cmd.isDraft).length = 1) ∧
    ∃ o, afterCycles env m ds rs 4 = some o ∧ o.m.state = .stateGenerating ∧
      o.m.revision = 4 ∧ o.cmd = [Cmd.generate (ds 3)] ∧
      o.m.history.getLast? = some "Judges: Forced approval after max revisions." := by
  constructor
  · intro n h1 h3
    obtain ⟨o, e, hr, _, _, _, hs⟩ := afterCycles_rejected env m ds rs hrev hrej n h3
    obtain ⟨hs1, hs2⟩ := hs h1
    exact ⟨o, e, hs1, hr, by simp [hs2, Cmd.isDraft]⟩
  · obtain ⟨o, e, hr, _, _, _, _⟩ := afterCycles_rejected env m ds rs hrev hrej 3 (le_refl _)
    have hf : 3 < o.m.revision + 1 := by rw [hr]; norm_num
    have e4 : afterCycles env m ds rs 4 = cycle env o.m (ds 3) (rs 3) := by
      simp only [afterCycles] at e ⊢
      simp only [e]
    rw [cycle_forced env o.m (ds 3) (rs 3) (hrej 3) hf] at e4
    refine ⟨_, e4, rfl, ?_, rfl, ?_⟩
    · simp only [hr]
      norm_num
    · simp

/-- The theorem `forced_approval_on_fourth_rejection` on a reviewer that always
rejects. -/
theorem forced_approval_on_fourth_rejection_witness :
    draftingModel.revision = 0 ∧ (∀ i : Nat, ((fun _ => rejection) i).Approved = false) ∧
    ((∀ n, 1 ≤ n → n ≤ 3 → ∃ o,
        afterCycles quietEnv draftingModel (fun _ => twoNodes) (fun _ => rejection) n = some o ∧
        o.m.state = .stateArchitecting ∧ o.m.revision = n ∧
        (o.cmd.filter Cmd.isDraft).length = 1) ∧
    ∃ o, afterCycles quietEnv draftingModel (fun _ => twoNodes) (fun _ => rejection) 4 = some o ∧
      o.m.state = .stateGenerating ∧
      o.m.revision = 4 ∧ o.cmd = [Cmd.generate ((fun _ => twoNodes) 3)] ∧
      o.m.history.getLast? = some "Judges: Forced approval after max revisions.") :=
  ⟨rfl, fun _ => rfl,
    forced_approval_on_fourth_rejection quietEnv draftingModel (fun _ => twoNodes)
      (fun _ => rejection) rfl (fun _ => rfl)⟩

/-- C2 as stated fails: after the 3rd consecutive rejection from `revision = 0`
the machine is not in `stateGenerating`; it is in `stateArchitecting` with
`revision = 3` and a fourth Draft call has been issued. -/
theorem forced_approval_third_rejection_counterexample :
    ∃ o, afterCycles quietEnv draftingModel (fun _ => twoNodes) (fun _ => rejection) 3 = some o ∧
      o.m.state ≠ .stateGenerating ∧ o.m.state = .stateArchitecting ∧ o.m.revision = 3 ∧
      o.cmd = [Cmd.architect "Order flow. Feedback: c d" "" none] :=
  ⟨_, rfl, by decide, rfl, rfl, rfl⟩

/-! ## C3: a Draft result with too few nodes -/

/-- C3 (amended). A Draft result without any node is refused by
`GenerateFlowchart`: the machine goes to `stateInput` with the error recorded in
`err` and in the log, and no Review call is issued.  Every Draft result with at
least one node (a single node included) moves the machine to `stateJudging` and
issues the Review call on it. -/
theorem draft_node_check (env : Env) (m : model) (fc : Flowchart) :
    ∃ o, Update env m (architectCmd (.ok fc)) = some o ∧
      if fc.Nodes.length = 0 then
        o.m.state = .stateInput ∧ o.cmd = [] ∧
        ∃ e, o.m.err = some e ∧ o.m.history = m.history ++ ["Error: " ++ e]
      else
        o.m.state = .stateJudging ∧ o.cmd = [Cmd.judge fc m.prompt] ∧ o.m.err = m.err ∧
        o.m.flowchart = fc := by
  by_cases h : fc.Nodes.length = 0
  · simp only [architectCmd, GenerateFlowchart, h, if_true]
    exact ⟨_, rfl, rfl, rfl, _, rfl, rfl⟩
  · simp only [architectCmd, GenerateFlowchart, h, if_false]
    exact ⟨_, rfl, rfl, rfl, rfl, rfl⟩

/-- C3 as stated fails: a Draft result with exactly one node is delivered as an
`architectMsg`, and `Update` moves to `stateJudging` and issues the Review call,
with no error recorded. -/
theorem one_node_draft_counterexample :
    oneNode.Nodes.length = 1 ∧ architectCmd (.ok oneNode) = .architectMsg oneNode ∧
    ∃ o, Update quietEnv draftingModel (architectCmd (.ok oneNode)) = some o ∧
      o.m.state = .stateJudging ∧ o.m.state ≠ .stateInput ∧ o.m.err = none ∧
      o.cmd = [Cmd.judge oneNode "Order flow"] :=
  ⟨rfl, rfl, _, rfl, rfl, by decide, rfl, rfl⟩

/-! ## C4: result events in a state that does not await them -/

/-- C4 (amended). Result events are dispatched on their type alone: for every
model and every asynchronous result event, `Update` runs the handler of that
event type whatever the current state is.  The outcome does not depend on the
current state, and the log always gains one entry; so a result of a type the
current state does not await is applied, not ignored. -/
theorem result_events_dispatch_on_type (env : Env) (m : model) (s : state) (e : Msg)
    (he : e.isResult = true) :
    Update env { m with state := s } e = Update env m e ∧
    ∃ o entry, Update env m e = some o ∧ o.m.history = m.history ++ [entry] := by
  cases e with
  | key k => simp [Msg.isResult] at he
  | spinnerTick id => simp [Msg.isResult] at he
  | other => simp [Msg.isResult] at he
  | analysisMsg r =>
    by_cases h1 : r.Status = "valid"
    · simp only [Update, h1, if_true]
      exact ⟨trivial, _, _, rfl, rfl⟩
    · by_cases h2 : r.Status = "needs_info"
      · simp only [Update, h1, h2, if_true, if_false]
        exact ⟨trivial, _, _, rfl, rfl⟩
      · simp only [Update, h1, h2, if_false]
        exact ⟨trivial, _, _, rfl, rfl⟩
  | researchMsg r => exact ⟨rfl, _, _, rfl, rfl⟩
  | architectMsg d => exact ⟨rfl, _, _, rfl, rfl⟩
  | judgeMsg r =>
    by_cases ha : r.Approved = true
    · simp only [Update, ha, if_true]
      exact ⟨trivial, _, _, rfl, rfl⟩
    · by_cases hr : m.revision + 1 > 3
      · simp only [Update, ha, hr, if_true, if_false]
        exact ⟨trivial, _, _, rfl, rfl⟩
      · simp only [Update, ha, hr, if_false]
        exact ⟨trivial, _, _, rfl, rfl⟩
  | generationMsg err filename =>
    cases err with
    | none => exact ⟨rfl, _, _, rfl, rfl⟩
    | some e => exact ⟨rfl, _, _, rfl, rfl⟩
  | errMsg err => exact ⟨rfl, _, _, rfl, rfl⟩

/-- The theorem `result_events_dispatch_on_type` on a rejection arriving in
`stateDone`. -/
theorem result_events_dispatch_on_type_witness :
    (Msg.judgeMsg rejection).isResult = true ∧
    (Update quietEnv { newModel with state := .stateDone } (.judgeMsg rejection)
        = Update quietEnv newModel (.judgeMsg rejection) ∧
      ∃ o entry, Update quietEnv newModel (.judgeMsg rejection) = some o ∧
        o.m.history = newModel.history ++ [entry]) :=
  ⟨rfl, result_events_dispatch_on_type quietEnv newModel .stateDone (.judgeMsg rejection) rfl⟩

/-- C4 as stated fails: a `judgeMsg` arriving in `stateInput`, which awaits no
result, is not ignored: the model changes (it moves to `stateGenerating` and
the log grows) and the Emit command is issued. -/
theorem stale_judgeMsg_counterexample :
    newModel.state = .stateInput ∧
    ∃ o, Update quietEnv newModel (.judgeMsg ⟨true, "", ""⟩) = some o ∧
      o.m ≠ newModel ∧ o.m.state = .stateGenerating ∧
      o.m.history = ["Judges: Unanimous Approval."] ∧
      o.cmd = [Cmd.generate newModel.flowchart] :=
  ⟨rfl, _, rfl, by decide, rfl, rfl, rfl⟩

/-! ## C5: at most one call outstanding -/

/-- A command handed back by a widget is never a Step call. -/
theorem filter_isStep_widget (l : List Nat) :
    (l.map Cmd.widget).filter Cmd.isStep = [] := by
  induction l with
  | nil => rfl
  | cons a l ih => simp [List.filter_cons, Cmd.isStep, ih]

/-- Handling a result message leaves the machine with the call it returned, if
any, matching the new state. -/
theorem Update_result_inv (env : Env) (m : model) (msg : Msg) (o : Outcome)
    (hres : msg.isResult = true) (h : Update env m msg = some o) :
    DispatchInv ⟨o.m, o.cmd.filter Cmd.isStep⟩ := by
  cases msg with
  | key k => simp [Msg.isResult] at hres
  | spinnerTick id => simp [Msg.isResult] at hres
  | other => simp [Msg.isResult] at hres
  | analysisMsg r =>
    simp only [Update] at h
    split_ifs at h <;> cases h <;> simp [DispatchInv, Cmd.isStep, Cmd.awaitedIn, state.inflight]
  | researchMsg r =>
    cases h; simp [DispatchInv, Cmd.isStep, Cmd.awaitedIn, state.inflight]
  | architectMsg d =>
    cases h; simp [DispatchInv, Cmd.isStep, Cmd.awaitedIn, state.inflight]
  | judgeMsg r =>
    simp only [Update] at h
    split_ifs at h <;> cases h <;> simp [DispatchInv, Cmd.isStep, Cmd.awaitedIn, state.inflight]
  | generationMsg err filename =>
    cases err <;> cases h <;> simp [DispatchInv, Cmd.isStep, Cmd.awaitedIn, state.inflight]
  | errMsg err =>
    cases h; simp [DispatchInv, Cmd.isStep, Cmd.awaitedIn, state.inflight]

/-- Handling a message that is not a result: in an in-flight state nothing is
issued and the state stays; elsewhere the call returned, if any, matches the
new state. -/
theorem Update_event_inv (env : Env) (m : model) (msg : Msg) (o : Outcome)
    (hres : msg.isResult = false) (h : Update env m msg = some o) :
    (m.state.inflight = true → o.m.state = m.state ∧ o.cmd.filter Cmd.isStep = []) ∧
    (m.state.inflight = false → DispatchInv ⟨o.m, o.cmd.filter Cmd.isStep⟩) := by
  cases msg with
  | analysisMsg r => simp [Msg.isResult] at hres
  | researchMsg r => simp [Msg.isResult] at hres
  | architectMsg r => simp [Msg.isResult] at hres
  | judgeMsg r => simp [Msg.isResult] at hres
  | generationMsg e f => simp [Msg.isResult] at hres
  | errMsg e => simp [Msg.isResult] at hres
  | other =>
    cases h
    simp [DispatchInv, Cmd.isStep]
  | spinnerTick id =>
    simp only [Update] at h
    split_ifs at h <;> cases h <;> simp [DispatchInv, filter_isStep_widget]
  | key k =>
    simp only [Update] at h
    split_ifs at h with hq hd hi hh ha
    · cases h
      simp [DispatchInv, Cmd.isStep]
    · cases h
      simp [DispatchInv, Cmd.isStep]
    · simp only [updateInput] at h
      split_ifs at h
      · cases h
        simp [DispatchInv, hi, state.inflight]
      · cases h
        simp [DispatchInv, hi, state.inflight, Cmd.isStep, Cmd.awaitedIn]
      · split at h <;> cases h <;> simp [DispatchInv, hi, state.inflight]
      · cases h
        simp [DispatchInv, hi, state.inflight, filter_isStep_widget]
    · simp only [updateHistory] at h
      split at h
      · split_ifs at h <;> cases h <;> simp [DispatchInv, hh, state.inflight]
      · split_ifs at h <;> cases h <;> simp [DispatchInv, hh, state.inflight]
      · split at h
        · cases h
        · split at h <;> cases h <;> simp [DispatchInv, hh, state.inflight]
      · cases h
        simp [DispatchInv, hh, state.inflight]
      · split_ifs at h
        · split at h
          · cases h
          · cases h
            simp [DispatchInv, hh, state.inflight]
        · cases h
          simp [DispatchInv, hh, state.inflight]
      · cases h
        simp [DispatchInv, hh, state.inflight]
    · simp only [updateAnswering] at h
      split_ifs at h <;> (try split at h) <;> cases h <;>
        simp [DispatchInv, ha, state.inflight, Cmd.isStep, Cmd.awaitedIn, filter_isStep_widget]
    · cases h
      simp [DispatchInv, Cmd.isStep]

/-- The dispatch invariant is kept by every step of the event loop. -/
theorem DispatchInv_step (c c' : Config) (hinv : DispatchInv c) (hs : Step c c') :
    DispatchInv c' := by
  cases hs with
  | event env _ msg o hres hu =>
    obtain ⟨h1, h2⟩ := Update_event_inv env c.m msg o hres hu
    rcases hinv with ⟨hp, hf⟩ | ⟨call, hp, hc⟩
    · simpa [hp] using h2 hf
    · have hf : c.m.state.inflight = true := by
        revert hc
        cases call <;> cases c.m.state <;> simp [Cmd.awaitedIn, state.inflight]
      obtain ⟨hst, hnil⟩ := h1 hf
      exact Or.inr ⟨call, by simp [hp, hnil], by simpa [hst] using hc⟩
  | deliver env _ pre post call msg o hp hd hu =>
    have hres : msg.isResult = true := by
      cases call <;> simp only [delivers] at hd
      · obtain ⟨res, rfl⟩ := hd
        cases res <;> rfl
      · obtain ⟨res, rfl⟩ := hd
        cases res <;> rfl
      · obtain ⟨res, rfl⟩ := hd
        cases res with
        | error e => rfl
        | ok f =>
          simp only [architectCmd, GenerateFlowchart]
          split_ifs <;> rfl
      · obtain ⟨ok, res, rfl⟩ := hd
        cases ok <;> cases res <;> rfl
      · obtain ⟨ts, ge, rfl⟩ := hd
        cases ge <;> rfl
    have hinv' := Update_result_inv env c.m msg o hres hu
    rcases hinv with ⟨hnil, _⟩ | ⟨call', hone, _⟩
    · rw [hnil] at hp
      simp at hp
    · rw [hone] at hp
      have hpre : pre = [] := by
        cases pre with
        | nil => rfl
        | cons a t =>
          simp only [List.cons_append, List.cons.injEq] at hp
          have := hp.2
          simp at this
      subst hpre
      simp only [List.nil_append, List.cons.injEq] at hp
      obtain ⟨_, hpost⟩ := hp
      rw [← hpost]
      simpa using hinv'

/-- Every reachable configuration satisfies the dispatch invariant. -/
theorem DispatchInv_reachable (c : Config) (h : Reachable c) : DispatchInv c := by
  induction h with
  | refl => exact Or.inl ⟨rfl, rfl⟩
  | tail _ hs ih => exact DispatchInv_step _ _ ih hs

/-- A single `Update` returns at most one Step call. -/
theorem Update_one_call (env : Env) (m : model) (msg : Msg) (o : Outcome)
    (h : Update env m msg = some o) : (o.cmd.filter Cmd.isStep).length ≤ 1 := by
  by_cases hres : msg.isResult = true
  · rcases Update_result_inv env m msg o hres h with ⟨hp, _⟩ | ⟨call, hp, _⟩
    · simp only at hp
      simp [hp]
    · simp only at hp
      simp [hp]
  · have hres' : msg.isResult = false := by simpa using hres
    obtain ⟨h1, h2⟩ := Update_event_inv env m msg o hres' h
    cases hf : m.state.inflight with
    | true => simp [(h1 hf).2]
    | false =>
      rcases h2 hf with ⟨hp, _⟩ | ⟨call, hp, _⟩
      · simp only at hp
        simp [hp]
      · simp only at hp
        simp [hp]

/-- C5. At most one Step call is outstanding at any time: in the step relation
where each Step call returned by `Update` becomes pending and its result
message is later delivered once, every configuration reachable from the initial
model has at most one pending call, a call is pending only while the state is
its matching in-flight state, and a single `Update` never returns more than one
Step call. -/
theorem at_most_one_call_outstanding (c : Config) (h : Reachable c) :
    c.pending.length ≤ 1 ∧
    (∀ call ∈ c.pending, call.awaitedIn c.m.state = true) ∧
    (∀ (env : Env) (m : model) (msg : Msg) (o : Outcome),
      Update env m msg = some o → (o.cmd.filter Cmd.isStep).length ≤ 1) := by
  refine ⟨?_, ?_, fun env m msg o hu => Update_one_call env m msg o hu⟩
  · rcases DispatchInv_reachable c h with ⟨hp, _⟩ | ⟨call, hp, _⟩ <;> simp [hp]
  · rcases DispatchInv_reachable c h with ⟨hp, _⟩ | ⟨call, hp, hc⟩
    · simp [hp]
    · intro call' hmem
      rw [hp] at hmem
      simp only [List.mem_singleton] at hmem
      rw [hmem]
      exact hc

/-- Typing "x" is a step of the event loop. -/
theorem typedConfig_step : Step ⟨newModel, []⟩ typedConfig :=
  Step.event typingEnv ⟨newModel, []⟩ (.key ⟨.KeyRunes, "x"⟩) ⟨typedConfig.m, [], []⟩ rfl rfl

/-- Submitting the typed request is a step of the event loop; it issues the
Analyze call. -/
theorem analyzingConfig_step : Step typedConfig analyzingConfig :=
  Step.event typingEnv typedConfig (.key ⟨.KeyOther, "ctrl+s"⟩)
    ⟨analyzingConfig.m, [Cmd.spinnerTick, Cmd.analyze "x" ["User: x"]], []⟩ rfl rfl

/-- The configuration with the Analyze call pending is reachable. -/
theorem analyzingConfig_reachable : Reachable analyzingConfig :=
  Relation.ReflTransGen.tail
    (Relation.ReflTransGen.tail Relation.ReflTransGen.refl typedConfig_step)
    analyzingConfig_step

/-- The theorem `at_most_one_call_outstanding` on the configuration with the
Analyze call pending. -/
theorem at_most_one_call_outstanding_witness :
    Reachable analyzingConfig ∧
    (analyzingConfig.pending.length ≤ 1 ∧
    (∀ call ∈ analyzingConfig.pending, call.awaitedIn analyzingConfig.m.state = true) ∧
    (∀ (env : Env) (m : model) (msg : Msg) (o : Outcome),
      Update env m msg = some o → (o.cmd.filter Cmd.isStep).length ≤ 1)) :=
  ⟨analyzingConfig_reachable, at_most_one_call_outstanding analyzingConfig analyzingConfig_reachable⟩

/-! ## C6: log entries of the state transitions -/

/-- The load-baseline transition appends nothing: whenever `Update` goes from
`stateInput` to `stateHistory`, the log is unchanged. -/
theorem load_baseline_appends_none (env : Env) (m : model) (msg : Msg) (o : Outcome)
    (h : Update env m msg = some o) (hi : m.state = .stateInput)
    (hh : o.m.state = .stateHistory) : o.m.history = m.history := by
  cases msg with
  | key k =>
    by_cases hq : k.String_ = "ctrl+c" ∨ k.String_ = "q"
    · simp only [Update, if_pos hq] at h
      cases h
      rfl
    · have hd' : ¬ (m.state = .stateDone ∧ k.String_ = "o") := by
        rw [hi]
        intro hc
        exact absurd hc.1 (by decide)
      simp only [Update, if_neg hq, if_neg hd', if_pos hi, updateInput] at h
      split_ifs at h
      · cases h
        rfl
      · cases h
        cases hh
      · split at h
        · cases h
          rfl
        · cases h
          exact absurd (hi.symm.trans hh) (by decide)
      · cases h
        rfl
  | spinnerTick id =>
    simp only [Update] at h
    split_ifs at h <;> cases h <;> rfl
  | other => cases h; rfl
  | analysisMsg r =>
    simp only [Update] at h
    split_ifs at h <;> cases h <;> cases hh
  | researchMsg r => cases h; cases hh
  | architectMsg d => cases h; cases hh
  | judgeMsg r =>
    simp only [Update] at h
    split_ifs at h <;> cases h <;> cases hh
  | generationMsg err filename => cases err <;> cases h <;> cases hh
  | errMsg err => cases h; cases hh

/-- The cancel transition appends nothing: whenever Esc takes `Update` from
`stateHistory` to `stateInput`, the log is unchanged. -/
theorem cancel_appends_none (env : Env) (m : model) (k : KeyMsg) (o : Outcome)
    (h : Update env m (.key k) = some o) (hh : m.state = .stateHistory)
    (hk : k.Type_ = .KeyEsc) : o.m.history = m.history := by
  by_cases hq : k.String_ = "ctrl+c" ∨ k.String_ = "q"
  · simp only [Update, if_pos hq] at h
    cases h
    rfl
  · have hd : ¬ (m.state = .stateDone ∧ k.String_ = "o") := by
      rw [hh]
      intro hc
      exact absurd hc.1 (by decide)
    have hi : ¬ m.state = .stateInput := by
      rw [hh]
      decide
    simp only [Update, if_neg hq, if_neg hd, if_neg hi, if_pos hh, updateHistory, hk] at h
    cases h
    rfl

/-- C6 (amended). Every state transition appends exactly one entry to the log,
except the load-baseline transition `stateInput` → `stateHistory` and the cancel
transition `stateHistory` → `stateInput` (Esc), which append none.  Whenever
`Update` changes the state or moves the question cursor, either the new history
is the previous one with exactly one entry appended, or the history is unchanged
and the transition is one of those two; and those two transitions always leave
the history unchanged: every step from `stateInput` to `stateHistory` does, and
every step from `stateHistory` to `stateInput` on Esc does. -/
theorem transition_log_entry (env : Env) (m : model) (msg : Msg) (o : Outcome)
    (h : Update env m msg = some o)
    (ht : o.m.state ≠ m.state ∨ o.m.currentQIndex ≠ m.currentQIndex) :
    ((∃ entry, o.m.history = m.history ++ [entry]) ∨
      (o.m.history = m.history ∧ m.state = .stateInput ∧ o.m.state = .stateHistory ∧
        ∃ k, msg = .key k ∧ k.String_ = "ctrl+l") ∨
      (o.m.history = m.history ∧ m.state = .stateHistory ∧ o.m.state = .stateInput ∧
        ∃ k, msg = .key k ∧ k.Type_ = .KeyEsc)) ∧
    (m.state = .stateInput → o.m.state = .stateHistory →
      o.m.history = m.history ∧ ¬ ∃ entry, o.m.history = m.history ++ [entry]) ∧
    (m.state = .stateHistory → o.m.state = .stateInput →
      (∃ k, msg = .key k ∧ k.Type_ = .KeyEsc) →
      o.m.history = m.history ∧ ¬ ∃ entry, o.m.history = m.history ++ [entry]) := by
  have hno : o.m.history = m.history →
      o.m.history = m.history ∧ ¬ ∃ entry, o.m.history = m.history ++ [entry] := by
    intro he
    refine ⟨he, ?_⟩
    rintro ⟨entry, hentry⟩
    rw [he] at hentry
    have := congrArg List.length hentry
    simp at this
  refine ⟨?_, fun hi hh => hno (load_baseline_appends_none env m msg o h hi hh), ?_⟩
  · cases msg with
    | key k =>
      simp only [Update, updateInput, updateHistory, updateAnswering] at h
      split_ifs at h <;> (try split at h) <;> (try split at h) <;> (try split at h) <;>
        cases h <;> simp_all
    | spinnerTick id =>
      simp only [Update] at h
      split_ifs at h <;> cases h <;> simp at ht
    | other => cases h; simp at ht
    | analysisMsg r =>
      simp only [Update] at h
      split_ifs at h <;> cases h <;> simp
    | researchMsg r => cases h; simp
    | architectMsg d => cases h; simp
    | judgeMsg r =>
      simp only [Update] at h
      split_ifs at h <;> cases h <;> simp
    | generationMsg err filename => cases err <;> cases h <;> simp
    | errMsg err => cases h; simp
  · intro hh _ hesc
    obtain ⟨k, rfl, hk⟩ := hesc
    exact hno (cancel_appends_none env m k o h hh hk)

/-- The theorem `transition_log_entry` on the cancel transition of the history
screen. -/
theorem transition_log_entry_witness :
    Update savedEnv historyModel (.key ⟨.KeyEsc, "esc"⟩) = some historyCancelled ∧
    (historyCancelled.m.state ≠ historyModel.state ∨
      historyCancelled.m.currentQIndex ≠ historyModel.currentQIndex) ∧
    (((∃ entry, historyCancelled.m.history = historyModel.history ++ [entry]) ∨
      (historyCancelled.m.history = historyModel.history ∧
        historyModel.state = .stateInput ∧ historyCancelled.m.state = .stateHistory ∧
        ∃ k, Msg.key ⟨.KeyEsc, "esc"⟩ = .key k ∧ k.String_ = "ctrl+l") ∨
      (historyCancelled.m.history = historyModel.history ∧
        historyModel.state = .stateHistory ∧ historyCancelled.m.state = .stateInput ∧
        ∃ k, Msg.key ⟨.KeyEsc, "esc"⟩ = .key k ∧ k.Type_ = .KeyEsc)) ∧
    (historyModel.state = .stateInput → historyCancelled.m.state = .stateHistory →
      historyCancelled.m.history = historyModel.history ∧
        ¬ ∃ entry, historyCancelled.m.history = historyModel.history ++ [entry]) ∧
    (historyModel.state = .stateHistory → historyCancelled.m.state = .stateInput →
      (∃ k, Msg.key ⟨.KeyEsc, "esc"⟩ = .key k ∧ k.Type_ = .KeyEsc) →
      historyCancelled.m.history = historyModel.history ∧
        ¬ ∃ entry, historyCancelled.m.history = historyModel.history ++ [entry])) :=
  ⟨rfl, Or.inl (by decide),
    transition_log_entry savedEnv historyModel (.key ⟨.KeyEsc, "esc"⟩) historyCancelled rfl
      (Or.inl (by decide))⟩

/-- C6 as stated fails: the load-baseline key in `stateInput`, with a saved
flowchart in the working directory, moves the machine to `stateHistory` and
appends no entry to the log; Esc then moves it back to `stateInput`, again
without an entry. -/
theorem load_baseline_no_log_counterexample :
    newModel.state = .stateInput ∧
    ∃ o, Update savedEnv newModel (.key ⟨.KeyOther, "ctrl+l"⟩) = some o ∧
      o.m.state = .stateHistory ∧ o.m.history = newModel.history ∧
      (¬ ∃ entry, o.m.history = newModel.history ++ [entry]) ∧
      ∃ o', Update savedEnv o.m (.key ⟨.KeyEsc, "esc"⟩) = some o' ∧
        o'.m.state = .stateInput ∧ o'.m.history = o.m.history :=
  ⟨rfl, _, rfl, rfl, rfl, by simp [newModel], _, rfl, rfl, rfl⟩

/-! ## C7: the log is append-only -/

/-- Every `Update` leaves the log as it is or appends one entry to it. -/
theorem Update_history (env : Env) (m : model) (msg : Msg) (o : Outcome)
    (h : Update env m msg = some o) :
    o.m.history = m.history ∨ ∃ entry, o.m.history = m.history ++ [entry] := by
  cases msg with
  | key k =>
    simp only [Update, updateInput, updateHistory, updateAnswering] at h
    split_ifs at h <;> (try split at h) <;> (try split at h) <;> (try split at h) <;>
      cases h <;> simp
  | spinnerTick id =>
    simp only [Update] at h
    split_ifs at h <;> cases h <;> simp
  | other => cases h; simp
  | analysisMsg r =>
    simp only [Update] at h
    split_ifs at h <;> cases h <;> simp
  | researchMsg r => cases h; simp
  | architectMsg d => cases h; simp
  | judgeMsg r =>
    simp only [Update] at h
    split_ifs at h <;> cases h <;> simp
  | generationMsg err filename => cases err <;> cases h <;> simp
  | errMsg err => cases h; simp

/-- C7. The log is append-only: for every model and every event, the history of
the model returned by `Update` has the previous history as a prefix, so the
length of the in-memory log never decreases. -/
theorem log_append_only (env : Env) (m : model) (msg : Msg) (o : Outcome)
    (h : Update env m msg = some o) :
    m.history <+: o.m.history ∧ m.history.length ≤ o.m.history.length := by
  rcases Update_history env m msg o h with he | ⟨entry, he⟩
  · rw [he]
    exact ⟨List.prefix_refl _, le_refl _⟩
  · rw [he]
    exact ⟨List.prefix_append _ _, by simp⟩

/-- The theorem `log_append_only` on a rejection within the cap. -/
theorem log_append_only_witness :
    Update quietEnv draftingModel (.judgeMsg rejection) =
      some ⟨{ draftingModel with
              revision := 1
              critique := "c d"
              history := ["Judges: Critique - c. Sending back to Architect."] },
            [Cmd.architect "Order flow. Feedback: c d" "" none], []⟩ ∧
    (draftingModel.history <+: ["Judges: Critique - c. Sending back to Architect."] ∧
      draftingModel.history.length ≤ ["Judges: Critique - c. Sending back to Architect."].length) :=
  ⟨rfl, log_append_only quietEnv draftingModel (.judgeMsg rejection) _ rfl⟩

/-! ## C8: the clarification loop -/

/-- One answer in `stateAnswering`, with the cursor on an existing question. -/
theorem submitAnswer_eq (env : Env) (m : model) (a q : String)
    (hs : m.state = .stateAnswering) (ha : blank a = false)
    (hq : index m.questions m.currentQIndex = some q) :
    submitAnswer env m a =
      if m.currentQIndex + 1 ≥ len m.questions then
        some ⟨{ m with
                history := m.history ++ ["Q: " ++ q ++ "\nA: " ++ a]
                answers := m.answers ++ [a]
                textInput := { m.textInput with value := "" }
                currentQIndex := m.currentQIndex + 1
                state := .stateResearching },
              [Cmd.spinnerTick,
               Cmd.research (m.prompt ++ " " ++ Join (m.answers ++ [a]) " ")
                 (m.history ++ ["Q: " ++ q ++ "\nA: " ++ a])], []⟩
      else
        some ⟨{ m with
                history := m.history ++ ["Q: " ++ q ++ "\nA: " ++ a]
                answers := m.answers ++ [a]
                textInput := { m.textInput with value := "", Placeholder := "Your answer..." }
                currentQIndex := m.currentQIndex + 1 },
              [], []⟩ := by
  have h1 : ¬ ("ctrl+s" = "ctrl+c" ∨ "ctrl+s" = "q") := by decide
  simp only [submitAnswer, Update, updateAnswering, hs, h1, ha, hq, textarea.Reset]
  simp

/-- The lookup `xs[i]` succeeds inside the bounds. -/
theorem index_lt {α : Type} (xs : List α) (i : Nat) (h : i < xs.length) :
    index xs (i : Int) = some (xs.get ⟨i, h⟩) := by
  simp [index, List.get?_eq_get h]

/-- The clarification loop from any cursor position `i`: with as many non-blank
answers as questions remain, every answer but the last keeps the machine in
`stateAnswering` without a call and moves the cursor by one; the last answer
moves it to `stateResearching` with one call. -/
theorem submitAnswers_observe (env : Env) :
    ∀ (as : List String) (m : model) (i : Nat),
      m.state = .stateAnswering → m.currentQIndex = (i : Int) → as ≠ [] →
      i + as.length = m.questions.length → (∀ a ∈ as, blank a = false) →
      (submitAnswers env m as).map Outcome.observe =
        (List.range (as.length - 1)).map
          (fun j => (state.stateAnswering, ((i + j + 1 : Nat) : Int), 0)) ++
        [(state.stateResearching, (m.questions.length : Int), 1)] := by
  intro as
  induction as with
  | nil => intro m i _ _ h; exact absurd rfl h
  | cons a rest ih =>
    intro m i hs hi _ hlen hb
    have hlt : i < m.questions.length := by simp at hlen; omega
    have hq := index_lt m.questions i hlt
    rw [← hi] at hq
    have ha : blank a = false := hb a (by simp)
    have hsub := submitAnswer_eq env m a _ hs ha hq
    by_cases hr : rest = []
    · subst hr
      have hge : m.currentQIndex + 1 ≥ len m.questions := by
        simp at hlen
        simp only [len, hi, ← hlen]
        push_cast
        omega
      rw [if_pos hge] at hsub
      simp only [submitAnswers, hsub]
      simp [Outcome.observe, Cmd.isStep, hi]
      simp at hlen
      omega
    · have hrl : 1 ≤ rest.length := by
        cases rest with
        | nil => exact absurd rfl hr
        | cons b t => simp
      have hlt2 : ¬ (m.currentQIndex + 1 ≥ len m.questions) := by
        simp at hlen
        simp only [len, hi, ← hlen]
        push_cast
        omega
      rw [if_neg hlt2] at hsub
      obtain ⟨o, ho, ho1, ho2, ho3, ho4⟩ : ∃ o, submitAnswer env m a = some o ∧
          o.m.state = .stateAnswering ∧ o.m.currentQIndex = ((i + 1 : Nat) : Int) ∧
          o.m.questions = m.questions ∧ o.cmd = [] :=
        ⟨_, hsub, hs, by simp [hi], rfl, rfl⟩
      simp only [submitAnswers, ho, List.map_cons]
      rw [ih o.m (i + 1) ho1 ho2 hr (by rw [ho3]; simp at hlen; omega)
        (fun b hbm => hb b (by simp [hbm]))]
      obtain ⟨k, hk⟩ : ∃ k, rest.length = k + 1 := ⟨rest.length - 1, by omega⟩
      simp only [List.length_cons, hk, Nat.add_sub_cancel, List.range_succ_eq_map, List.map_cons,
        List.map_map, List.cons_append, Outcome.observe, ho1, ho2, ho3, ho4]
      simp [Function.comp_def]
      intro j _
      omega

/-- The clarification loop with at least one question: when Analyze returns
needs_info with `N ≥ 1` questions and `N` non-blank answers are submitted in
order, the machine enters `stateAnswering` with the cursor at 0 and no call,
stays there without a call after each of the first `N - 1` answers (cursor
advanced by one) and moves to `stateResearching`, issuing one call, on the
`N`th answer. -/
theorem clarification_loop_with_questions (env : Env) (m : model) (r : AnalystResponse)
    (as : List String) (hst : r.Status = "needs_info") (hN : 1 ≤ r.Questions.length)
    (hlen : as.length = r.Questions.length) (hb : ∀ a ∈ as, blank a = false) :
    ∃ o, Update env m (.analysisMsg r) = some o ∧ o.m.state = .stateAnswering ∧
      o.m.currentQIndex = 0 ∧ o.cmd.filter Cmd.isStep = [] ∧
      (submitAnswers env o.m as).map Outcome.observe =
        (List.range (r.Questions.length - 1)).map
          (fun j => (state.stateAnswering, ((j + 1 : Nat) : Int), 0)) ++
        [(state.stateResearching, (r.Questions.length : Int), 1)] := by
  have h1 : ¬ ("needs_info" = "valid") := by decide
  have hne : as ≠ [] := by
    intro h
    rw [h] at hlen
    simp at hlen
    omega
  obtain ⟨o, ho, ho1, ho2, ho3, ho4⟩ : ∃ o, Update env m (.analysisMsg r) = some o ∧
      o.m.state = .stateAnswering ∧ o.m.currentQIndex = ((0 : Nat) : Int) ∧
      o.m.questions = r.Questions ∧ o.cmd.filter Cmd.isStep = [] := by
    simp only [Update, hst, h1, if_true, if_false]
    exact ⟨_, rfl, rfl, rfl, rfl, rfl⟩
  refine ⟨o, ho, ho1, by simpa using ho2, ho4, ?_⟩
  have := submitAnswers_observe env as o.m 0 ho1 ho2 hne (by rw [ho3]; omega) hb
  rw [this, ho3, hlen]
  simp

/-- C8 at `N = 0`: when Analyze returns needs_info without any question, the
machine still enters `stateAnswering` with the cursor at 0 and no call; the
question lookup `questions[currentQIndex]` of the prompt is out of range, and
so is the one of the answer handler when an answer is submitted (a panic, not
a transition to `stateResearching`). -/
theorem clarification_without_questions :
    ∃ o, Update quietEnv analyzingConfig.m (analyzeCmd (.ok noQuestions)) = some o ∧
      o.m.state = .stateAnswering ∧ o.m.questions = [] ∧ o.m.currentQIndex = 0 ∧
      o.cmd.filter Cmd.isStep = [] ∧ currentQuestion o.m = none ∧
      submitAnswer quietEnv o.m "yes" = none :=
  ⟨_, rfl, rfl, rfl, rfl, rfl, rfl, rfl⟩

/-! ## C9: dispatch on the Analyze verdict -/

/-- C9. Analyze verdict dispatch: on an `analysisMsg`, status "valid" moves to
`stateResearching` and issues a Research call on the request; status
"needs_info" moves to `stateAnswering` with the cursor reset to 0 and issues no
Step call; every other status moves to `stateInput` with `err` set to the
reason (behind the words "Analyst rejected: ") and issues no Step call.  A
failed Analyze call is delivered by `analyzeCmd` with status "error" and so
takes the last branch. -/
theorem analyze_verdict_dispatch (env : Env) (m : model) (r : AnalystResponse) :
    (∃ o, Update env m (.analysisMsg r) = some o ∧
      if r.Status = "valid" then
        o.m.state = .stateResearching ∧ o.cmd = [Cmd.research m.prompt o.m.history]
      else if r.Status = "needs_info" then
        o.m.state = .stateAnswering ∧ o.m.currentQIndex = 0 ∧ o.m.questions = r.Questions ∧
        o.cmd.filter Cmd.isStep = []
      else
        o.m.state = .stateInput ∧ o.m.err = some ("Analyst rejected: " ++ r.Reason) ∧
        o.cmd.filter Cmd.isStep = []) ∧
    analyzeCmd (.ok r) = .analysisMsg r ∧
    ∀ e : String, ∃ o, Update env m (analyzeCmd (.error e)) = some o ∧
      o.m.state = .stateInput ∧ o.m.err = some ("Analyst rejected: " ++ e) ∧
      o.cmd.filter Cmd.isStep = [] := by
  refine ⟨?_, rfl, fun e => ⟨_, rfl, rfl, rfl, rfl⟩⟩
  by_cases h1 : r.Status = "valid"
  · simp only [Update, h1, if_true]
    exact ⟨_, rfl, rfl, rfl⟩
  · by_cases h2 : r.Status = "needs_info"
    · simp only [Update, h1, h2, if_true, if_false]
      exact ⟨_, rfl, rfl, rfl, rfl, rfl⟩
    · simp only [Update, h1, h2, if_false]
      exact ⟨_, rfl, rfl, rfl, rfl⟩

/-! ## C10: a rejection within the cap -/

/-- C10. Rejection within the cap: when Review rejects and the incremented
revision count is at most 3, `Update` increases `revision` by exactly one, moves
to `stateArchitecting` and issues a Draft call whose requirements are
`prompt + ". Feedback: " + critique + " " + dissent`, with the research report
and the baseline of the model.  These are the report and baseline of the
previous Draft call: every Draft call `Update` issues carries the `researchData`
and `loadedFlow` of the model it returns, and neither the `architectMsg` handler
nor this one changes them (or the prompt). -/
theorem rejection_within_cap (env : Env) (m : model) (r : JudgeResponse)
    (hrej : r.Approved = false) (hcap : m.revision + 1 ≤ 3) :
    (∃ o, Update env m (.judgeMsg r) = some o ∧
      o.m.revision = m.revision + 1 ∧ o.m.state = .stateArchitecting ∧
      o.cmd = [Cmd.architect (m.prompt ++ ". Feedback: " ++ r.Critique ++ " " ++ r.Dissent)
        m.researchData m.loadedFlow] ∧
      o.m.researchData = m.researchData ∧ o.m.loadedFlow = m.loadedFlow ∧
      o.m.prompt = m.prompt) ∧
    (∀ (m0 : model) (msg0 : Msg) (o0 : Outcome) (reqs report : String)
        (baseline : Option Flowchart),
      Update env m0 msg0 = some o0 → Cmd.architect reqs report baseline ∈ o0.cmd →
      report = o0.m.researchData ∧ baseline = o0.m.loadedFlow) ∧
    (∀ (m0 : model) (d : Flowchart), ∃ o1, Update env m0 (.architectMsg d) = some o1 ∧
      o1.m.researchData = m0.researchData ∧ o1.m.loadedFlow = m0.loadedFlow ∧
      o1.m.prompt = m0.prompt ∧ o1.m.revision = m0.revision) := by
  refine ⟨?_, ?_, fun m0 d => ⟨_, rfl, rfl, rfl, rfl, rfl⟩⟩
  · rw [Update_judgeMsg_rejected env m r hrej hcap]
    refine ⟨_, rfl, rfl, rfl, ?_, rfl, rfl, rfl⟩
    simp [String.append_assoc]
  · intro m0 msg0 o0 reqs report baseline h hmem
    cases msg0 with
    | key k =>
      simp only [Update, updateInput, updateHistory, updateAnswering] at h
      split_ifs at h <;> (try split at h) <;> (try split at h) <;> (try split at h) <;>
        cases h <;> simp at hmem
    | spinnerTick id =>
      simp only [Update] at h
      split_ifs at h <;> cases h <;> simp at hmem
    | other => cases h; simp at hmem
    | analysisMsg r =>
      simp only [Update] at h
      split_ifs at h <;> cases h <;> simp at hmem
    | researchMsg r =>
      cases h
      simp at hmem
      simp [hmem]
    | architectMsg d => cases h; simp at hmem
    | judgeMsg r =>
      simp only [Update] at h
      split_ifs at h <;> cases h <;> simp at hmem
      simp [hmem]
    | generationMsg err filename => cases err <;> cases h <;> simp at hmem
    | errMsg err => cases h; simp at hmem

/-- The theorem `rejection_within_cap` on the first rejection of a session. -/
theorem rejection_within_cap_witness :
    rejection.Approved = false ∧ draftingModel.revision + 1 ≤ 3 ∧
    ∃ o, Update quietEnv draftingModel (.judgeMsg rejection) = some o ∧
      o.m.revision = draftingModel.revision + 1 ∧ o.m.state = .stateArchitecting ∧
      o.cmd = [Cmd.architect
        (draftingModel.prompt ++ ". Feedback: " ++ rejection.Critique ++ " " ++ rejection.Dissent)
        draftingModel.researchData draftingModel.loadedFlow] ∧
      o.m.researchData = draftingModel.researchData ∧
      o.m.loadedFlow = draftingModel.loadedFlow ∧
      o.m.prompt = draftingModel.prompt :=
  ⟨rfl, by decide, (rejection_within_cap quietEnv draftingModel rejection rfl (by decide)).1⟩

/-! ## Scripted runs stay inside the step relation -/

/-- The message delivered on a response is one the call can deliver. -/
theorem respond_delivers (call : Cmd) (r : Response) (msg : Msg)
    (h : respond call r = some msg) : delivers call msg := by
  cases call <;> cases r <;> simp only [respond] at h <;> cases h
  · exact ⟨_, rfl⟩
  · exact ⟨_, rfl⟩
  · exact ⟨_, rfl⟩
  · exact ⟨_, _, rfl⟩
  · exact ⟨_, _, rfl⟩

/-- Every step of a scripted run is a step of the event loop. -/
theorem feed_step (c c' : Config) (i : Input) (h : feed c i = some c') : Step c c' := by
  cases i with
  | event env msg =>
    simp only [feed] at h
    split_ifs at h with hres
    split at h
    · cases h
    · rename_i o ho
      cases h
      exact Step.event env c msg o (by simpa using hres) ho
  | result env r =>
    simp only [feed] at h
    split at h
    · cases h
    · rename_i call post hp
      split at h
      · cases h
      · rename_i msg hm
        split at h
        · cases h
        · rename_i o ho
          cases h
          have := Step.deliver env c [] post call msg o (by simpa using hp)
            (respond_delivers call r msg hm) ho
          simpa using this

/-- A scripted run from a reachable configuration ends in a reachable one. -/
theorem run_reachable (script : List Input) :
    ∀ (c c' : Config), Reachable c → run c script = some c' → Reachable c' := by
  induction script with
  | nil =>
    intro c c' hc h
    simp only [run] at h
    cases h
    exact hc
  | cons i rest ih =>
    intro c c' hc h
    simp only [run] at h
    split at h
    · cases h
    · rename_i c1 h1
      exact ih c1 c' (Relation.ReflTransGen.tail hc (feed_step c c1 i h1)) h

/-! ## C11: the revision counter -/

/-- How one `Update` moves the revision counter: it stays, or it grows by one on
a rejection within the cap, or it grows by one on a forced approval, which the
log records. -/
theorem Update_revision (env : Env) (m : model) (msg : Msg) (o : Outcome)
    (h : Update env m msg = some o) :
    (o.m.revision = m.revision ∧ m.history <+: o.m.history) ∨
    (o.m.revision = m.revision + 1 ∧ m.revision + 1 ≤ 3 ∧ m.history <+: o.m.history) ∨
    (o.m.revision = m.revision + 1 ∧ o.m.history = m.history ++ [forcedEntry]) := by
  cases msg with
  | key k =>
    simp only [Update, updateInput, updateHistory, updateAnswering] at h
    split_ifs at h <;> (try split at h) <;> (try split at h) <;> (try split at h) <;>
      cases h <;> simp
  | spinnerTick id =>
    simp only [Update] at h
    split_ifs at h <;> cases h <;> simp
  | other => cases h; simp
  | analysisMsg r =>
    simp only [Update] at h
    split_ifs at h <;> cases h <;> simp
  | researchMsg r => cases h; simp
  | architectMsg d => cases h; simp
  | judgeMsg r =>
    simp only [Update] at h
    split_ifs at h with h1 h2
    · cases h; simp
    · cases h
      right; right
      exact ⟨rfl, rfl⟩
    · cases h
      right; left
      refine ⟨rfl, by simpa using h2, by simp⟩
  | generationMsg err filename => cases err <;> cases h <;> simp
  | errMsg err => cases h; simp

/-- The revision bound is kept by every step of the event loop. -/
theorem revision_bound_step (c c' : Config) (hs : Step c c')
    (h : 0 ≤ c.m.revision ∧ c.m.revision ≤ 3 + (c.m.history.count forcedEntry : Int)) :
    0 ≤ c'.m.revision ∧ c'.m.revision ≤ 3 + (c'.m.history.count forcedEntry : Int) := by
  have key : ∀ (env : Env) (msg : Msg) (o : Outcome), Update env c.m msg = some o →
      0 ≤ o.m.revision ∧ o.m.revision ≤ 3 + (o.m.history.count forcedEntry : Int) := by
    intro env msg o hu
    rcases Update_revision env c.m msg o hu with ⟨h1, h2⟩ | ⟨h1, h2, h3⟩ | ⟨h1, h2⟩
    · have := h2.sublist.count_le forcedEntry
      omega
    · have := h3.sublist.count_le forcedEntry
      omega
    · rw [h2, List.count_append]
      simp
      omega
  cases hs with
  | event env _ msg o _ hu => exact key env msg o hu
  | deliver env _ pre post call msg o _ _ hu => exact key env msg o hu

/-- C11 (amended). In every session state reachable from the initial model,
`revision` is at least 0 and at most cap = 3 plus the number of forced approvals
recorded in the log; so it never exceeds cap + 1 = 4 while the log holds at most
one forced approval.  The counter is not reset by a new submission, so a
rejection in a run that follows a forced approval takes it above 4. -/
theorem revision_bounded_by_forced_approvals (c : Config) (h : Reachable c) :
    0 ≤ c.m.revision ∧ c.m.revision ≤ 3 + (c.m.history.count forcedEntry : Int) ∧
    (c.m.history.count forcedEntry ≤ 1 → c.m.revision ≤ 4) := by
  have hb : 0 ≤ c.m.revision ∧ c.m.revision ≤ 3 + (c.m.history.count forcedEntry : Int) := by
    induction h with
    | refl => exact ⟨le_refl _, by simp [newModel]⟩
    | tail _ hs ih => exact revision_bound_step _ _ hs ih
  refine ⟨hb.1, hb.2, fun h1 => ?_⟩
  have : (c.m.history.count forcedEntry : Int) ≤ 1 := by exact_mod_cast h1
  omega

/-- The theorem `revision_bounded_by_forced_approvals` on the configuration with
the Analyze call pending. -/
theorem revision_bounded_by_forced_approvals_witness :
    Reachable analyzingConfig ∧
    (0 ≤ analyzingConfig.m.revision ∧
      analyzingConfig.m.revision ≤ 3 + (analyzingConfig.m.history.count forcedEntry : Int) ∧
      (analyzingConfig.m.history.count forcedEntry ≤ 1 → analyzingConfig.m.revision ≤ 4)) :=
  ⟨analyzingConfig_reachable,
    revision_bounded_by_forced_approvals analyzingConfig analyzingConfig_reachable⟩

/-- C11 as stated fails: a run with four rejections ends in forced approval with
`revision = 4`; when its Emit fails the machine is back in `stateInput`, and
after a new submission the next rejection takes `revision` to 5. -/
theorem revision_exceeds_four_counterexample :
    ∃ c, Reachable c ∧ run ⟨newModel, []⟩ twoRuns = some c ∧ c.m.revision = 5 ∧
      ¬ c.m.revision ≤ 4 :=
  ⟨_, run_reachable twoRuns ⟨newModel, []⟩ _ Relation.ReflTransGen.refl rfl, rfl, rfl,
    by decide⟩

/-! ## C12: Review fails open -/

/-- C12. Review fails open: when the diagram cannot be serialized or the Review
call fails (API or parse error), `judgeCmd` yields an approved ruling, so
`Update` moves (from `stateJudging`, as from any state) to `stateGenerating` and
issues the Emit call for the current diagram, without incrementing `revision`
and without recording an error. -/
theorem review_fails_open (env : Env) (m : model) (marshalOk : Bool)
    (parsed : Except String JudgeResponse)
    (hfail : marshalOk = false ∨ ∃ e, parsed = .error e) :
    judgeCmd marshalOk parsed = .judgeMsg { Approved := true, Critique := "", Dissent := "" } ∧
    ∃ o, Update env m (judgeCmd marshalOk parsed) = some o ∧
      o.m.state = .stateGenerating ∧ o.cmd = [Cmd.generate m.flowchart] ∧
      o.m.revision = m.revision ∧ o.m.err = m.err ∧ o.m.flowchart = m.flowchart := by
  have hj : judgeCmd marshalOk parsed =
      .judgeMsg { Approved := true, Critique := "", Dissent := "" } := by
    rcases hfail with h | ⟨e, h⟩
    · simp [judgeCmd, h]
    · cases marshalOk <;> simp [judgeCmd, Judgement, h]
  rw [hj]
  exact ⟨rfl, _, rfl, rfl, rfl, rfl, rfl, rfl⟩

/-- The theorem `review_fails_open` on a Review call that fails with a time-out. -/
theorem review_fails_open_witness :
    (true = false ∨ ∃ e, (Except.error "timeout" : Except String JudgeResponse) = .error e) ∧
    (judgeCmd true (.error "timeout") =
        .judgeMsg { Approved := true, Critique := "", Dissent := "" } ∧
    ∃ o, Update quietEnv { draftingModel with state := .stateJudging }
        (judgeCmd true (.error "timeout")) = some o ∧
      o.m.state = .stateGenerating ∧
      o.cmd = [Cmd.generate ({ draftingModel with state := .stateJudging } : model).flowchart] ∧
      o.m.revision = ({ draftingModel with state := .stateJudging } : model).revision ∧
      o.m.err = ({ draftingModel with state := .stateJudging } : model).err ∧
      o.m.flowchart = ({ draftingModel with state := .stateJudging } : model).flowchart) :=
  ⟨Or.inr ⟨_, rfl⟩,
    review_fails_open quietEnv { draftingModel with state := .stateJudging } true
      (.error "timeout") (Or.inr ⟨_, rfl⟩)⟩

/-! ## C13: a Research failure is not fatal -/

/-- C13. Research failure is non-fatal: whether the Research call succeeds or
fails, `researchCmd` delivers a `researchMsg` (the report, or the placeholder
report on failure), and on it `Update` stores the report, moves to
`stateArchitecting` and issues a Draft call carrying that report and the current
baseline; `err` is not set and the machine does not return to `stateInput`. -/
theorem research_failure_not_fatal (env : Env) (m : model) (res : Except String String) :
    ∃ report, researchCmd res = .researchMsg report ∧
      report = (match res with
        | .ok r => r
        | .error _ => "Research failed but continuing...") ∧
      ∃ o, Update env m (researchCmd res) = some o ∧
        o.m.researchData = report ∧ o.m.state = .stateArchitecting ∧
        o.cmd = [Cmd.architect (m.prompt ++ " " ++ m.analysisSummary) report m.loadedFlow] ∧
        o.m.loadedFlow = m.loadedFlow ∧ o.m.err = m.err ∧ o.m.state ≠ .stateInput := by
  cases res with
  | ok r => exact ⟨r, rfl, rfl, _, rfl, rfl, rfl, rfl, rfl, rfl, fun h => by cases h⟩
  | error e =>
    exact ⟨"Research failed but continuing...", rfl, rfl, _, rfl, rfl, rfl, rfl, rfl, rfl,
      fun h => by cases h⟩

/-! ## C14: the recorded error -/

/-- In `stateDone` every key returns the model as it is, with no Step call. -/
theorem Update_key_done (env : Env) (m : model) (k : KeyMsg) (hd : m.state = .stateDone) :
    ∃ o, Update env m (.key k) = some o ∧ o.m = m ∧ o.cmd.filter Cmd.isStep = [] ∧
      (k.String_ = "o" → o.cmd = [] ∧ o.opened = [m.finalPath]) := by
  by_cases hq : k.String_ = "ctrl+c" ∨ k.String_ = "q"
  · refine ⟨⟨m, [Cmd.quit], []⟩, by simp [Update, hq], rfl, rfl, fun ho => ?_⟩
    rw [ho] at hq
    exact absurd hq (by decide)
  · by_cases ho : k.String_ = "o"
    · exact ⟨⟨m, [], [m.finalPath]⟩, by simp [Update, hq, hd, ho], rfl, rfl, fun _ => ⟨rfl, rfl⟩⟩
    · exact ⟨⟨m, [], []⟩, by simp [Update, hq, hd, ho], rfl, rfl, fun h => absurd h ho⟩

/-- The configuration at the end of the successful run is reachable. -/
theorem doneConfig_reachable : Reachable doneConfig :=
  run_reachable successfulRun ⟨newModel, []⟩ doneConfig Relation.ReflTransGen.refl rfl

/-- C15 (amended). In `stateDone` the open-artifact key "o" leaves the model
unchanged (side effect only: `finalPath` is handed to `openFileInOS`), and so
does every other key, a submission (ctrl+s) included: no step of the event loop
leads from `stateDone` to `stateInput`; the model, with all session fields and
the log, stays as it is and no call is issued. -/
theorem done_is_terminal (c : Config) (hr : Reachable c) (hd : c.m.state = .stateDone) :
    (∀ (env : Env) (k : KeyMsg), ∃ o, Update env c.m (.key k) = some o ∧ o.m = c.m ∧
      o.cmd.filter Cmd.isStep = [] ∧
      (k.String_ = "o" → o.cmd = [] ∧ o.opened = [c.m.finalPath])) ∧
    (∀ c', Step c c' → c'.m = c.m ∧ c'.pending = []) := by
  refine ⟨fun env k => Update_key_done env c.m k hd, ?_⟩
  have hp : c.pending = [] := by
    rcases DispatchInv_reachable c hr with ⟨hp, _⟩ | ⟨call, _, hc⟩
    · exact hp
    · rw [hd] at hc
      cases call <;> simp [Cmd.awaitedIn] at hc
  intro c' hs
  cases hs with
  | event env _ msg o hres hu =>
    cases msg with
    | key k =>
      obtain ⟨o', ho', hm, hf, _⟩ := Update_key_done env c.m k hd
      rw [ho'] at hu
      cases hu
      exact ⟨hm, by simp [hp, hf]⟩
    | spinnerTick id =>
      simp only [Update, hd] at hu
      simp at hu
      cases hu
      exact ⟨rfl, by simp [hp]⟩
    | other =>
      cases hu
      exact ⟨rfl, by simp [hp]⟩
    | analysisMsg r => simp [Msg.isResult] at hres
    | researchMsg r => simp [Msg.isResult] at hres
    | architectMsg r => simp [Msg.isResult] at hres
    | judgeMsg r => simp [Msg.isResult] at hres
    | generationMsg e f => simp [Msg.isResult] at hres
    | errMsg e => simp [Msg.isResult] at hres
  | deliver env _ pre post call msg o hpe _ _ =>
    rw [hp] at hpe
    simp at hpe

/-- The theorem `done_is_terminal` at the end of the successful run. -/
theorem done_is_terminal_witness :
    Reachable doneConfig ∧ doneConfig.m.state = .stateDone ∧
    ((∀ (env : Env) (k : KeyMsg), ∃ o, Update env doneConfig.m (.key k) = some o ∧
      o.m = doneConfig.m ∧ o.cmd.filter Cmd.isStep = [] ∧
      (k.String_ = "o" → o.cmd = [] ∧ o.opened = [doneConfig.m.finalPath])) ∧
    (∀ c', Step doneConfig c' → c'.m = doneConfig.m ∧ c'.pending = [])) :=
  ⟨doneConfig_reachable, rfl, done_is_terminal doneConfig doneConfig_reachable rfl⟩

/-- C15 as stated fails: at the end of a successful run, typing a new request
and submitting it leaves the machine in `stateDone` with the model unchanged;
it does not move to `stateInput`. -/
theorem submission_in_done_counterexample :
    run ⟨newModel, []⟩ successfulRun = some doneConfig ∧ doneConfig.m.state = .stateDone ∧
    ∃ c, run doneConfig [typeText "New request", pressSubmit] = some c ∧
      c.m.state = .stateDone ∧ c.m.state ≠ .stateInput ∧ c.m = doneConfig.m :=
  ⟨rfl, rfl, _, rfl, rfl, by decide, rfl⟩

/-! ## C16: the baseline across the revision loop -/

/-- Only a confirmed selection on the history screen changes `loadedFlow`. -/
theorem Update_loadedFlow (env : Env) (m : model) (msg : Msg) (o : Outcome)
    (h : Update env m msg = some o) :
    o.m.loadedFlow = m.loadedFlow ∨
    (m.state = .stateHistory ∧ ∃ k, msg = .key k ∧ k.Type_ = .KeyEnter) := by
  cases msg with
  | key k =>
    simp only [Update, updateInput, updateHistory, updateAnswering] at h
    split_ifs at h <;> (try split at h) <;> (try split at h) <;> (try split at h) <;>
      cases h <;> simp_all
  | spinnerTick id =>
    simp only [Update] at h
    split_ifs at h <;> cases h <;> simp
  | other => cases h; simp
  | analysisMsg r =>
    simp only [Update] at h
    split_ifs at h <;> cases h <;> simp
  | researchMsg r => cases h; simp
  | architectMsg d => cases h; simp
  | judgeMsg r =>
    simp only [Update] at h
    split_ifs at h <;> cases h <;> simp
  | generationMsg err filename => cases err <;> cases h <;> simp
  | errMsg err => cases h; simp

/-- Every Draft call issued by `Update` carries the baseline of the model, which
the same `Update` leaves as it was. -/
theorem Update_draft_baseline (env : Env) (m : model) (msg : Msg) (o : Outcome)
    (reqs report : String) (baseline : Option Flowchart)
    (h : Update env m msg = some o) (hmem : Cmd.architect reqs report baseline ∈ o.cmd) :
    baseline = m.loadedFlow ∧ o.m.loadedFlow = m.loadedFlow := by
  cases msg with
  | key k =>
    simp only [Update, updateInput, updateHistory, updateAnswering] at h
    split_ifs at h <;> (try split at h) <;> (try split at h) <;> (try split at h) <;>
      cases h <;> simp at hmem
  | spinnerTick id =>
    simp only [Update] at h
    split_ifs at h <;> cases h <;> simp at hmem
  | other => cases h; simp at hmem
  | analysisMsg r =>
    simp only [Update] at h
    split_ifs at h <;> cases h <;> simp at hmem
  | researchMsg r =>
    cases h
    simp at hmem
    simp [hmem]
  | architectMsg d => cases h; simp at hmem
  | judgeMsg r =>
    simp only [Update] at h
    split_ifs at h <;> cases h <;> simp at hmem
    simp [hmem]
  | generationMsg err filename => cases err <;> cases h <;> simp at hmem
  | errMsg err => cases h; simp at hmem

/-- C16. The baseline is preserved across the revision loop: no event handled by
`Update` other than a confirmed selection (Enter) on the history screen changes
`loadedFlow`; every Draft call issued by `Update` carries the model's
`loadedFlow`; a confirmed selection of a loadable file sets `loadedFlow` to the
diagram read; and from a session with `revision = 0`, the Draft call after
Research and the Draft calls after each of up to three consecutive rejections
all carry the same `loadedFlow`. -/
theorem baseline_preserved (env : Env) (m : model) (msg : Msg) (o : Outcome)
    (h : Update env m msg = some o) :
    (o.m.loadedFlow = m.loadedFlow ∨
      (m.state = .stateHistory ∧ ∃ k, msg = .key k ∧ k.Type_ = .KeyEnter)) ∧
    (∀ (reqs report : String) (baseline : Option Flowchart),
      Cmd.architect reqs report baseline ∈ o.cmd →
      baseline = m.loadedFlow ∧ o.m.loadedFlow = m.loadedFlow) ∧
    (∀ (file : String) (B : Flowchart) (k : KeyMsg),
      m.state = .stateHistory → msg = .key k → k.Type_ = .KeyEnter →
      ¬ (k.String_ = "ctrl+c" ∨ k.String_ = "q") →
      index m.files m.cursor = some file → env.readFlow file = some B →
      o.m.loadedFlow = some B ∧ o.m.state = .stateInput) ∧
    (∀ (report : String), ∃ o1, Update env m (.researchMsg report) = some o1 ∧
      o1.m.loadedFlow = m.loadedFlow ∧ o1.m.revision = m.revision ∧
      ∃ reqs, o1.cmd = [Cmd.architect reqs report m.loadedFlow]) ∧
    (∀ (ds : Nat → Flowchart) (rs : Nat → JudgeResponse) (n : Nat),
      m.revision = 0 → (∀ i, (rs i).Approved = false) → 1 ≤ n → n ≤ 3 →
      ∃ o2 reqs report, afterCycles env m ds rs n = some o2 ∧
        o2.cmd = [Cmd.architect reqs report m.loadedFlow] ∧
        o2.m.loadedFlow = m.loadedFlow) := by
  refine ⟨Update_loadedFlow env m msg o h,
    fun reqs report baseline hmem => Update_draft_baseline env m msg o reqs report baseline h hmem,
    ?_, fun report => ⟨_, rfl, rfl, rfl, _, rfl⟩, ?_⟩
  · intro file B k hs hmsg hk hq hidx hread
    subst hmsg
    have hne1 : m.state ≠ .stateDone := by rw [hs]; decide
    have hne2 : m.state ≠ .stateInput := by rw [hs]; decide
    simp only [Update, hq, hne1, hne2, hs, updateHistory, hk, hidx, hread, if_false, if_true,
      false_and] at h
    cases h
    exact ⟨rfl, rfl⟩
  · intro ds rs n hrev hrej h1 h3
    obtain ⟨o2, e, _, _, _, hl, hc⟩ := afterCycles_rejected env m ds rs hrev hrej n h3
    exact ⟨o2, _, _, e, (hc h1).2, hl⟩

/-- The theorem `baseline_preserved` on the confirmed selection of a saved
flowchart. -/
theorem baseline_preserved_witness :
    Update savedEnv historyModel (.key ⟨.KeyEnter, "enter"⟩) = some baselineLoaded ∧
    baselineLoaded.m.loadedFlow = some twoNodes ∧
    ((baselineLoaded.m.loadedFlow = historyModel.loadedFlow ∨
      (historyModel.state = .stateHistory ∧
        ∃ k, Msg.key ⟨.KeyEnter, "enter"⟩ = .key k ∧ k.Type_ = .KeyEnter)) ∧
    (∀ (reqs report : String) (baseline : Option Flowchart),
      Cmd.architect reqs report baseline ∈ baselineLoaded.cmd →
      baseline = historyModel.loadedFlow ∧
        baselineLoaded.m.loadedFlow = historyModel.loadedFlow)) :=
  ⟨rfl, rfl,
    (baseline_preserved savedEnv historyModel (.key ⟨.KeyEnter, "enter"⟩) baselineLoaded rfl).1,
    (baseline_preserved savedEnv historyModel (.key ⟨.KeyEnter, "enter"⟩) baselineLoaded rfl).2.1⟩

/-- The scenario of C16 on a concrete run: after the baseline is loaded from the
history screen, the Draft call issued after Research and the three issued after
the rejections all carry that baseline. -/
theorem baselineRun_drafts :
    ((runPending ⟨newModel, []⟩ baselineRun).flatten.filterMap Cmd.baseline).dedup =
      [some twoNodes] ∧
    ∃ c, run ⟨newModel, []⟩ baselineRun = some c ∧ c.m.revision = 3 ∧
      c.m.loadedFlow = some twoNodes ∧
      c.pending.filterMap Cmd.baseline = [some twoNodes] :=
  ⟨by decide, _, rfl, rfl, rfl, rfl⟩

/-! ## C17: Scenario A -/

/-- C17. Scenario A end to end: from the initial model, submitting the request
"Order flow", then an Analyze result needs_info with 2 questions, two non-blank
answers, a successful Research result, a Draft result with 3 nodes, an approving
Review result and a successful Emit result drive the state through Analyzing,
Answering, Answering, Researching, Architecting, Judging, Generating and end in
`stateDone` with `revision = 0`, no error recorded and no call pending. -/
theorem scenario_A (reason summary q1 q2 a1 a2 report : String) (d : Flowchart)
    (ruling : JudgeResponse) (timestamp : String)
    (h1 : blank a1 = false) (h2 : blank a2 = false) (hd : d.Nodes.length = 3)
    (hr : ruling.Approved = true) :
    runMilestones ⟨newModel, []⟩
        (scenarioA reason summary q1 q2 a1 a2 report d ruling timestamp) =
      [.stateAnalyzing, .stateAnswering, .stateAnswering, .stateResearching,
       .stateArchitecting, .stateJudging, .stateGenerating, .stateDone] ∧
    ∃ c, run ⟨newModel, []⟩
        (scenarioA reason summary q1 q2 a1 a2 report d ruling timestamp) = some c ∧
      c.m.state = .stateDone ∧ c.m.revision = 0 ∧ c.m.err = none ∧ c.pending = [] ∧
      c.m.flowchart = d := by
  have hb : blank "Order flow" = false := by decide
  have hnz : ¬ d.Nodes.length = 0 := by omega
  simp [scenarioA, runMilestones, run, feed, typeText, pressSubmit, typesEnv, quietEnv, Update,
    updateInput, updateAnswering, respond, analyzeCmd, researchCmd, architectCmd,
    GenerateFlowchart, judgeCmd, Judgement, generateCmd, newModel, Msg.isResult, Cmd.isStep,
    textarea.Reset, textarea.Focus, index, len, h1, h2, hb, hnz, hr]

/-- The theorem `scenario_A` on two concrete questions and answers and a
three-node diagram. -/
theorem scenario_A_witness :
    blank "A web checkout" = false ∧ blank "No approval" = false ∧
    threeNodes.Nodes.length = 3 ∧ approval.Approved = true ∧
    (runMilestones ⟨newModel, []⟩
        (scenarioA "Too vague" "User wants an order process." "What triggers the order?"
          "Are there approval steps?" "A web checkout" "No approval" "report" threeNodes
          approval "20250101_120000") =
      [.stateAnalyzing, .stateAnswering, .stateAnswering, .stateResearching,
       .stateArchitecting, .stateJudging, .stateGenerating, .stateDone] ∧
    ∃ c, run ⟨newModel, []⟩
        (scenarioA "Too vague" "User wants an order process." "What triggers the order?"
          "Are there approval steps?" "A web checkout" "No approval" "report" threeNodes
          approval "20250101_120000") = some c ∧
      c.m.state = .stateDone ∧ c.m.revision = 0 ∧ c.m.err = none ∧ c.pending = [] ∧
      c.m.flowchart = threeNodes) :=
  ⟨by decide, by decide, rfl, rfl,
    scenario_A "Too vague" "User wants an order process." "What triggers the order?"
      "Are there approval steps?" "A web checkout" "No approval" "report" threeNodes
      approval "20250101_120000" (by decide) (by decide) rfl rfl⟩

/-! ## C18: the artifact file name -/

/-- The rune map keeps ASCII letters and digits and sends every other rune to
the underscore. -/
theorem safeRune_eq (c : Char) : safeRune c = if c.isAlphanum then c else '_' := by
  have hle : ∀ a b : UInt32, a ≤ b ↔ a.toNat ≤ b.toNat := fun _ _ => Iff.rfl
  have e1 : (97 : UInt32).toNat = 97 := rfl
  have e2 : (122 : UInt32).toNat = 122 := rfl
  have e3 : (65 : UInt32).toNat = 65 := rfl
  have e4 : (90 : UInt32).toNat = 90 := rfl
  have e5 : (48 : UInt32).toNat = 48 := rfl
  have e6 : (57 : UInt32).toNat = 57 := rfl
  have hn : c.toNat = c.val.toNat := rfl
  simp only [safeRune, Char.isAlphanum, Char.isAlpha, Char.isUpper, Char.isLower, Char.isDigit,
    Bool.or_eq_true, Bool.and_eq_true, decide_eq_true_eq, ge_iff_le, hle, e1, e2, e3, e4, e5, e6,
    hn]
  by_cases h : (97 ≤ c.val.toNat ∧ c.val.toNat ≤ 122) ∨
      (65 ≤ c.val.toNat ∧ c.val.toNat ≤ 90) ∨ (48 ≤ c.val.toNat ∧ c.val.toNat ≤ 57)
  · have h' : (65 ≤ c.val.toNat ∧ c.val.toNat ≤ 90 ∨
        97 ≤ c.val.toNat ∧ c.val.toNat ≤ 122) ∨
        48 ≤ c.val.toNat ∧ c.val.toNat ≤ 57 := by tauto
    rw [if_pos h, if_pos h']
  · have h' : ¬ ((65 ≤ c.val.toNat ∧ c.val.toNat ≤ 90 ∨
        97 ≤ c.val.toNat ∧ c.val.toNat ≤ 122) ∨
        48 ≤ c.val.toNat ∧ c.val.toNat ≤ 57) := by tauto
    rw [if_neg h, if_neg h']

/-- The sanitized title, rune by rune. -/
theorem sanitize_toList (title : String) :
    (sanitize title).toList = title.toList.map (fun r => if r.isAlphanum then r else '_') := by
  simp only [sanitize, String.toList]
  exact List.map_congr_left (fun c _ => safeRune_eq c)

/-- The rune map is idempotent. -/
theorem safeRune_idem (c : Char) : safeRune (safeRune c) = safeRune c := by
  rw [safeRune_eq c]
  split_ifs with h
  · rw [safeRune_eq, if_pos h]
  · rfl

/-- C18. Artifact file name: for a fixed time stamp the file name built by
`generateCmd` is a function of the diagram title only: it is the sanitized
title (of "untitled_flow" for an empty title), then "_", the time stamp and
"_flow.html".  Sanitizing replaces every rune that is not an ASCII letter or
digit by the underscore and keeps every ASCII letter or digit in place, so the
sanitized title has the same number of runes, contains only letters, digits and
underscores, and sanitizing it again changes nothing. -/
theorem artifact_filename (fc : Flowchart) (timestamp title : String) :
    generateFilename fc timestamp =
      sanitize (if fc.Overview.Title = "" then "untitled_flow" else fc.Overview.Title) ++ "_" ++
        timestamp ++ "_flow.html" ∧
    generateCmd fc timestamp none = .generationMsg none (generateFilename fc timestamp) ∧
    generateFilename fc timestamp =
      generateFilename ⟨⟨fc.Overview.Title, ""⟩, [], []⟩ timestamp ∧
    (sanitize title).toList = title.toList.map (fun r => if r.isAlphanum then r else '_') ∧
    (sanitize title).length = title.length ∧
    (sanitize title).toList.all (fun r => r.isAlphanum || r == '_') = true ∧
    sanitize (sanitize title) = sanitize title ∧
    sanitize "untitled_flow" = "untitled_flow" := by
  refine ⟨rfl, rfl, rfl, sanitize_toList title, ?_, ?_, ?_, by decide⟩
  · show (List.map safeRune title.data).length = title.data.length
    exact List.length_map _ _
  · rw [sanitize_toList, List.all_eq_true]
    intro r hr
    simp only [List.mem_map] at hr
    obtain ⟨c, _, rfl⟩ := hr
    by_cases h : c.isAlphanum = true
    · rw [if_pos h, h]
      rfl
    · rw [if_neg h]
      rw [Bool.or_eq_true]
      exact Or.inr (by decide)
  · simp only [sanitize, String.toList, List.map_map]
    congr 1
    exact List.map_congr_left (fun c _ => safeRune_idem c)

/-! ## C19: the saved JSON file is found by the history screen -/

/-- A file name `base ++ ".html"` with a non-empty `base` gives the JSON file
name `base ++ ".json"`. -/
theorem jsonFilename_html (base : String) (h : base ≠ "") :
    jsonFilename (base ++ ".html") = base ++ ".json" := by
  have hb : 0 < base.utf8ByteSize := by
    obtain ⟨l⟩ := base
    cases l with
    | nil => exact absurd rfl h
    | cons c cs =>
      simp only [String.utf8ByteSize_mk, String.utf8Len_cons]
      have := Char.utf8Size_pos c
      omega
  have h5 : (".html" : String).utf8ByteSize = 5 := by decide
  have hsize : (base ++ ".html").utf8ByteSize > 5 := by
    obtain ⟨l⟩ := base
    simp only [String.utf8ByteSize_mk] at hb
    show String.utf8ByteSize ⟨l ++ ".html".data⟩ > 5
    simp only [String.utf8ByteSize_mk, String.utf8Len_append]
    have : String.utf8Len ['.', 'h', 't', 'm', 'l'] = 5 := by decide
    omega
  have hsuf : HasSuffix (base ++ ".html") ".html" = true := by
    simp [HasSuffix, String.toList]
  simp only [jsonFilename, hsize, hsuf, and_self, if_true]
  apply String.ext
  simp [String.toList]


/-- The file name built by `generateCmd` is a non-empty base name followed by
".html", and the base name ends in "_flow". -/
theorem generateFilename_base (fc : Flowchart) (timestamp : String) :
    ∃ stem : String, generateFilename fc timestamp = (stem ++ "_flow") ++ ".html" ∧
      stem ++ "_flow" ≠ "" := by
  refine ⟨sanitize (if fc.Overview.Title = "" then "untitled_flow" else fc.Overview.Title) ++
    "_" ++ timestamp, ?_, ?_⟩
  · apply String.ext
    simp [generateFilename, sanitize, String.toList]
  · intro h
    have := congrArg String.length h
    simp only [String.length_append] at this
    have h5 : ("_flow" : String).length = 5 := by decide
    have h0 : ("" : String).length = 0 := by decide
    omega

/-- C19. Emitted artifacts are found by the history store: for every diagram
and time stamp, the JSON file name that `GenerateHTML` derives from the file
name built by `generateCmd` is that file name with its ".html" suffix replaced
by ".json" (the same base name as the rendering); it is the JSON file
`GenerateHTML` writes, it ends in "_flow.json", and `getJSONFiles` lists it
whenever it is a regular file of the working directory. -/
theorem emitted_json_discoverable (env : Env) (entries : List DirEntry) (fc : Flowchart)
    (timestamp : String) (hdir : env.readDir = .ok entries)
    (hfile : ⟨jsonFilename (generateFilename fc timestamp), false⟩ ∈ entries) :
    (∃ base : String, generateFilename fc timestamp = base ++ ".html" ∧
      jsonFilename (generateFilename fc timestamp) = base ++ ".json") ∧
    GenerateHTML none (fun _ => none) (generateFilename fc timestamp) =
      (none, [jsonFilename (generateFilename fc timestamp), generateFilename fc timestamp]) ∧
    HasSuffix (jsonFilename (generateFilename fc timestamp)) "_flow.json" = true ∧
    ∃ files, getJSONFiles env = .ok files ∧
      jsonFilename (generateFilename fc timestamp) ∈ files := by
  obtain ⟨stem, hname, hne⟩ := generateFilename_base fc timestamp
  have hjson : jsonFilename (generateFilename fc timestamp) = (stem ++ "_flow") ++ ".json" := by
    rw [hname]
    exact jsonFilename_html _ hne
  have hsuf : HasSuffix (jsonFilename (generateFilename fc timestamp)) "_flow.json" = true := by
    rw [hjson]
    simp [HasSuffix, String.toList]
  have hlist : getJSONFiles env = .ok (entries.filterMap fun f =>
      if !f.IsDir && HasSuffix f.Name "_flow.json" then some f.Name
      else if env.equalFold f.Name "flowchart.json" then some f.Name
      else none) := by
    simp only [getJSONFiles, hdir]
  refine ⟨⟨_, hname, hjson⟩, rfl, hsuf, _, hlist, ?_⟩
  rw [List.mem_filterMap]
  exact ⟨_, hfile, by simp [hsuf]⟩

/-- The theorem `emitted_json_discoverable` on the artifact of a two-node
diagram titled "Order". -/
theorem emitted_json_discoverable_witness :
    ({ quietEnv with readDir := .ok [⟨"Order_20250101_120000_flow.json", false⟩] } : Env).readDir
      = .ok [⟨"Order_20250101_120000_flow.json", false⟩] ∧
    (⟨jsonFilename (generateFilename twoNodes "20250101_120000"), false⟩ : DirEntry) ∈
      [(⟨"Order_20250101_120000_flow.json", false⟩ : DirEntry)] ∧
    ((∃ base : String, generateFilename twoNodes "20250101_120000" = base ++ ".html" ∧
      jsonFilename (generateFilename twoNodes "20250101_120000") = base ++ ".json") ∧
    GenerateHTML none (fun _ => none) (generateFilename twoNodes "20250101_120000") =
      (none, [jsonFilename (generateFilename twoNodes "20250101_120000"),
        generateFilename twoNodes "20250101_120000"]) ∧
    HasSuffix (jsonFilename (generateFilename twoNodes "20250101_120000")) "_flow.json" = true ∧
    ∃ files,
      getJSONFiles { quietEnv with readDir := .ok [⟨"Order_20250101_120000_flow.json", false⟩] }
        = .ok files ∧
      jsonFilename (generateFilename twoNodes "20250101_120000") ∈ files) :=
  ⟨rfl, by decide,
    emitted_json_discoverable
      { quietEnv with readDir := .ok [⟨"Order_20250101_120000_flow.json", false⟩] }
      [⟨"Order_20250101_120000_flow.json", false⟩] twoNodes "20250101_120000" rfl (by decide)⟩

/-! ## C20: the question lookup -/

/-- Every `Update` keeps the cursor inside `questions` while in
`stateAnswering`, except the `analysisMsg` handler on a needs_info result
without any question. -/
theorem questionIndexOk_preserved (env : Env) (m : model) (msg : Msg) (o : Outcome)
    (h : Update env m msg = some o) (hinv : questionIndexOk m)
    (hq : ∀ r, msg = .analysisMsg r → r.Status = "needs_info" → r.Questions ≠ []) :
    questionIndexOk o.m := by
  unfold questionIndexOk at hinv ⊢
  cases msg with
  | key k =>
    clear hq
    simp only [Update, updateInput, updateHistory, updateAnswering] at h
    split_ifs at h <;> (try split at h) <;> (try split at h) <;> (try split at h) <;>
      cases h <;> (simp_all; try omega)
  | spinnerTick id =>
    clear hq
    simp only [Update] at h
    split_ifs at h <;> cases h <;> simpa using hinv
  | other => cases h; simpa using hinv
  | analysisMsg r =>
    have hq' := hq r rfl
    clear hq
    simp only [Update] at h
    split_ifs at h with h1 h2
    · cases h
      intro hs
      cases hs
    · cases h
      intro _
      have := hq' h2
      simp only [len]
      cases hr : r.Questions with
      | nil => exact absurd hr this
      | cons a t =>
        simp only [List.length_cons]
        omega
    · cases h
      intro hs
      cases hs
  | researchMsg r =>
    cases h
    intro hs
    cases hs
  | architectMsg d =>
    cases h
    intro hs
    cases hs
  | judgeMsg r =>
    simp only [Update] at h
    split_ifs at h <;> cases h <;> intro hs <;> cases hs
  | generationMsg err filename => cases err <;> cases h <;> intro hs <;> cases hs
  | errMsg err =>
    cases h
    intro hs
    cases hs

/-- C20 at its failing input: after a submission, an Analyze result needs_info
without any question is reachable and leaves the machine in `stateAnswering`
with `currentQIndex = 0` and no question, so the cursor is not below
`len(questions)`: the lookup `questions[currentQIndex]` of `View` is out of
range, and so is the one of the answer handler once an answer is typed and
submitted. -/
theorem question_index_out_of_range :
    ∃ c c1, Reachable c ∧ run ⟨newModel, []⟩ noQuestionsRun = some c ∧
      c.m.state = .stateAnswering ∧ c.m.currentQIndex = 0 ∧ c.m.questions = [] ∧
      ¬ questionIndexOk c.m ∧ currentQuestion c.m = none ∧
      feed c (typeText "yes") = some c1 ∧ feed c1 pressSubmit = none :=
  ⟨_, _, run_reachable noQuestionsRun ⟨newModel, []⟩ _ Relation.ReflTransGen.refl rfl, rfl, rfl,
    rfl, rfl, fun h => absurd (h rfl).2 (by decide), rfl, rfl, rfl⟩

/-! ## C21: the cursor of the history screen -/

/-- Every `Update` keeps the cursor of the history screen inside the file
list. -/
theorem historyCursorOk_preserved (env : Env) (m : model) (msg : Msg) (o : Outcome)
    (h : Update env m msg = some o) (hinv : historyCursorOk m) : historyCursorOk o.m := by
  unfold historyCursorOk at hinv ⊢
  cases msg with
  | key k =>
    simp only [Update] at h
    split_ifs at h with hq hd hi hh ha
    · cases h
      exact hinv
    · cases h
      exact hinv
    · simp only [updateInput] at h
      split_ifs at h
      · cases h
        intro hs
        exact absurd (hi.symm.trans hs) (by decide)
      · cases h
        intro hs
        cases hs
      · split at h
        · cases h
          intro _
          simp only [len, List.length_cons]
          omega
        · cases h
          intro hs
          exact absurd (hi.symm.trans hs) (by decide)
      · cases h
        intro hs
        exact absurd (hi.symm.trans hs) (by decide)
    · have hb := hinv hh
      simp only [updateHistory] at h
      split at h
      · split_ifs at h <;> cases h <;> intro _ <;> dsimp only <;> omega
      · split_ifs at h <;> cases h <;> intro _ <;> dsimp only <;> omega
      · split at h
        · cases h
        · split at h <;> cases h <;> intro hs <;> cases hs
      · cases h
        intro hs
        cases hs
      · split_ifs at h
        · split at h
          · cases h
          · cases h
            intro _
            exact hb
        · cases h
          intro _
          exact hb
      · cases h
        intro _
        exact hb
    · simp only [updateAnswering] at h
      split_ifs at h <;> (try split at h) <;> cases h <;> intro hs <;>
        first
        | cases hs
        | exact absurd (ha.symm.trans hs) (by decide)
    · cases h
      exact hinv
  | spinnerTick id =>
    simp only [Update] at h
    split_ifs at h <;> cases h <;> simpa using hinv
  | other => cases h; simpa using hinv
  | analysisMsg r =>
    simp only [Update] at h
    split_ifs at h <;> cases h <;> intro hs <;> cases hs
  | researchMsg r =>
    cases h
    intro hs
    cases hs
  | architectMsg d =>
    cases h
    intro hs
    cases hs
  | judgeMsg r =>
    simp only [Update] at h
    split_ifs at h <;> cases h <;> intro hs <;> cases hs
  | generationMsg err filename => cases err <;> cases h <;> intro hs <;> cases hs
  | errMsg err =>
    cases h
    intro hs
    cases hs

/-- Every reachable configuration has its history cursor in range. -/
theorem historyCursorOk_reachable (c : Config) (h : Reachable c) : historyCursorOk c.m := by
  induction h with
  | refl => intro hs; cases hs
  | tail _ hs ih =>
    cases hs with
    | event env _ msg o _ hu => exact historyCursorOk_preserved env _ msg o hu ih
    | deliver env _ pre post call msg o _ _ hu =>
      exact historyCursorOk_preserved env _ msg o hu ih

/-- The history screen on the saved flowchart is reachable. -/
theorem historyConfig_reachable : Reachable historyConfig :=
  run_reachable [.event savedEnv (.key ⟨.KeyOther, "ctrl+l"⟩)] ⟨newModel, []⟩ historyConfig
    Relation.ReflTransGen.refl rfl

/-- Inside the bounds the lookup `files[cursor]` succeeds. -/
theorem index_in_range {α : Type} (xs : List α) (i : Int) (h0 : 0 ≤ i) (h1 : i ≤ len xs - 1) :
    ∃ x, index xs i = some x := by
  obtain ⟨n, rfl⟩ := Int.eq_ofNat_of_zero_le h0
  have hn : n < xs.length := by
    simp only [len] at h1
    omega
  exact ⟨_, index_lt xs n hn⟩

/-- On the history screen a key that is not a quit key is handled by the
`stateHistory` branch. -/
theorem Update_key_eq_updateHistory (env : Env) (m : model) (k : KeyMsg)
    (hs : m.state = .stateHistory) (hq : ¬ (k.String_ = "ctrl+c" ∨ k.String_ = "q")) :
    Update env m (.key k) = updateHistory env m k := by
  have hd : ¬ (m.state = .stateDone ∧ k.String_ = "o") := by
    rw [hs]
    intro h
    exact absurd h.1 (by decide)
  have hi : ¬ m.state = .stateInput := by rw [hs]; decide
  simp only [Update, if_neg hq, if_neg hd, if_neg hi, if_pos hs]

/-- On the history screen, with the cursor in range, no key makes `Update`
panic. -/
theorem Update_key_history (env : Env) (m : model) (k : KeyMsg)
    (hs : m.state = .stateHistory) (h0 : 0 ≤ m.cursor) (h1 : m.cursor ≤ len m.files - 1) :
    ∃ o, Update env m (.key k) = some o := by
  obtain ⟨file, hf⟩ := index_in_range m.files m.cursor h0 h1
  by_cases hq : k.String_ = "ctrl+c" ∨ k.String_ = "q"
  · exact ⟨⟨m, [Cmd.quit], []⟩, by simp only [Update, if_pos hq]⟩
  · rw [Update_key_eq_updateHistory env m k hs hq]
    obtain ⟨t, s⟩ := k
    cases t with
    | KeyUp =>
      simp only [updateHistory]
      split_ifs <;> exact ⟨_, rfl⟩
    | KeyDown =>
      simp only [updateHistory]
      split_ifs <;> exact ⟨_, rfl⟩
    | KeyEnter =>
      simp only [updateHistory, hf]
      cases env.readFlow file <;> exact ⟨_, rfl⟩
    | KeyEsc => exact ⟨_, rfl⟩
    | KeyRunes =>
      simp only [updateHistory, hf]
      split_ifs <;> exact ⟨_, rfl⟩
    | KeyOther => exact ⟨_, rfl⟩

/-- C21. The history cursor stays in range: in every model reachable from the
initial model, `stateHistory` implies `len(files) > 0` and
`0 ≤ cursor ≤ len(files) - 1`; Up at cursor 0 and Down at the last entry leave
the cursor unchanged; so the lookup `files[cursor]` succeeds and no key, Enter
and "o" included, makes `Update` go out of range. -/
theorem history_cursor_in_range (c : Config) (hr : Reachable c)
    (hs : c.m.state = .stateHistory) :
    (0 < len c.m.files ∧ 0 ≤ c.m.cursor ∧ c.m.cursor ≤ len c.m.files - 1) ∧
    (∀ (env : Env) (k : KeyMsg), k.Type_ = .KeyUp → c.m.cursor = 0 →
      ∃ o, Update env c.m (.key k) = some o ∧ o.m.cursor = c.m.cursor) ∧
    (∀ (env : Env) (k : KeyMsg), k.Type_ = .KeyDown → c.m.cursor = len c.m.files - 1 →
      ∃ o, Update env c.m (.key k) = some o ∧ o.m.cursor = c.m.cursor) ∧
    (∃ file, index c.m.files c.m.cursor = some file) ∧
    (∀ (env : Env) (k : KeyMsg), ∃ o, Update env c.m (.key k) = some o) := by
  have hb := historyCursorOk_reachable c hr hs
  refine ⟨hb, ?_, ?_, index_in_range _ _ hb.2.1 hb.2.2,
    fun env k => Update_key_history env c.m k hs hb.2.1 hb.2.2⟩
  · intro env k hk h0
    by_cases hq : k.String_ = "ctrl+c" ∨ k.String_ = "q"
    · exact ⟨⟨c.m, [Cmd.quit], []⟩, by simp only [Update, if_pos hq], rfl⟩
    · have hn : ¬ (c.m.cursor > 0) := by omega
      rw [Update_key_eq_updateHistory env c.m k hs hq]
      exact ⟨⟨c.m, [], []⟩, by simp only [updateHistory, hk, if_neg hn], rfl⟩
  · intro env k hk hlast
    by_cases hq : k.String_ = "ctrl+c" ∨ k.String_ = "q"
    · exact ⟨⟨c.m, [Cmd.quit], []⟩, by simp only [Update, if_pos hq], rfl⟩
    · have hn : ¬ (c.m.cursor < len c.m.files - 1) := by omega
      rw [Update_key_eq_updateHistory env c.m k hs hq]
      exact ⟨⟨c.m, [], []⟩, by simp only [updateHistory, hk, if_neg hn], rfl⟩

/-- The theorem `history_cursor_in_range` on the history screen reached by the
load key. -/
theorem history_cursor_in_range_witness :
    Reachable historyConfig ∧ historyConfig.m.state = .stateHistory ∧
    ((0 < len historyConfig.m.files ∧ 0 ≤ historyConfig.m.cursor ∧
        historyConfig.m.cursor ≤ len historyConfig.m.files - 1) ∧
    (∀ (env : Env) (k : KeyMsg), k.Type_ = .KeyUp → historyConfig.m.cursor = 0 →
      ∃ o, Update env historyConfig.m (.key k) = some o ∧
        o.m.cursor = historyConfig.m.cursor) ∧
    (∀ (env : Env) (k : KeyMsg), k.Type_ = .KeyDown →
      historyConfig.m.cursor = len historyConfig.m.files - 1 →
      ∃ o, Update env historyConfig.m (.key k) = some o ∧
        o.m.cursor = historyConfig.m.cursor) ∧
    (∃ file, index historyConfig.m.files historyConfig.m.cursor = some file) ∧
    (∀ (env : Env) (k : KeyMsg), ∃ o, Update env historyConfig.m (.key k) = some o)) :=
  ⟨historyConfig_reachable, rfl,
    history_cursor_in_range historyConfig historyConfig_reachable rfl⟩

end Nodey
